import Mathlib

/-!
Verification of the Kundli Streamlit application (files `app.py` and
`kundli_services.py`) against its natural-language specification.

The development shallowly embeds the data-munging core of the program:

* a `Json` type standing for parsed Python/JSON values (dicts are modelled as
  association lists in insertion order, matching Python dict iteration order;
  JSON numbers are modelled as integers, which covers every value the claims
  exercise);
* Python dictionary access `d.get(k)` / `d.get(k, default)` as `pyGet` /
  `pyGetD`, which raise `AttributeError` on non-dict receivers, modelled in the
  `Except PErr` monad;
* Python truthiness (`truthy`), the short-circuiting `or` operator (`pyOrM`),
  Python `==` (`pyEq`, including `True == 1`) and Python `<` (`pyLt`, raising
  `TypeError` on incomparable operands);
* `list.sort(key=...)` as `pySortKeyed`: a stable sort by the key tuples,
  which the surrounding `try ... except: pass` turns into "return the rows
  unchanged when some key comparison raises" (stable sorting by a total
  preorder has a unique result, so any stable sort models CPython Timsort);
* the response-normalisation functions `flatten_divisional_positions`,
  `flatten_kundli_planets`, `flatten_kundli_houses` of `app.py`;
* the dasha helpers `_parse_dt`, `_find_period_covering`,
  `current_dasha_chain` of `app.py` (`pd.to_datetime` is modelled on ISO
  `YYYY-MM-DD` and `YYYY-MM-DDTHH:MM:SS` strings and yields `none` on every
  other value, which is the only behaviour the claims exercise: a value that
  fails to parse disqualifies its period);
* the sandbox-date substitution `_force_jan1` of `kundli_services.py`,
  including the exact semantics of `re.match` with a trailing `$` (which in
  Python also matches just before one final newline), with `\d` modelled as an
  ASCII digit;
* the per-endpoint request logic of `ProkeralaClient` (`get_chart_svg`,
  `get_dasha_periods`; `get_divisional_planet_position` and `get_kundli` are
  verbatim copies of the latter), abstracted over the HTTP transport as a
  function from the datetime query value to a `Resp`.

Recursion into nested `Json` values (`pyEq`, `pyLt`) is bounded by an explicit
fuel parameter so that the definitions reduce in the kernel; the bound of
1000000 far exceeds CPython recursion limits, so no behaviour is lost.
-/

/-- A parsed JSON / Python value.  Dicts are association lists in insertion
order; numbers are integers (no claim exercises float behaviour). -/
inductive Json where
  | null
  | bool (b : Bool)
  | num (n : Int)
  | str (s : String)
  | list (xs : List Json)
  | obj (kvs : List (String × Json))
deriving Repr

/-- Python exceptions that the embedded code can raise. -/
inductive PErr where
  | attributeError
  | typeError
deriving DecidableEq, Repr

/-- First binding of a key in an association list (Python dicts have unique
keys, so this is dict lookup). -/
def lookupJ : List (String × Json) → String → Option Json
  | [], _ => none
  | (k, v) :: kvs, key => if k == key then some v else lookupJ kvs key

/-- Python `d.get(k)`: `None` when the key is absent, `AttributeError` when the
receiver is not a dict.  A key bound to JSON null and an absent key both give
Python `None`, i.e. `Json.null`. -/
def pyGet : Json → String → Except PErr Json
  | .obj kvs, k => .ok ((lookupJ kvs k).getD .null)
  | _, _ => .error .attributeError

/-- Python `d.get(k, default)`. -/
def pyGetD : Json → String → Json → Except PErr Json
  | .obj kvs, k, d => .ok ((lookupJ kvs k).getD d)
  | _, _, _ => .error .attributeError

/-- Python truthiness: `None`, `False`, `0`, `""`, `[]`, `{}` are falsy. -/
def truthy : Json → Bool
  | .null => false
  | .bool b => b
  | .num n => n != 0
  | .str s => s != ""
  | .list xs => !xs.isEmpty
  | .obj kvs => !kvs.isEmpty

/-- Python `x or y` over fallible operands: short-circuits, so the right
operand is only evaluated (and can only raise) when the left one is falsy. -/
def pyOrM (x y : Except PErr Json) : Except PErr Json :=
  match x with
  | .error e => .error e
  | .ok a => if truthy a then .ok a else y

/-- Python iteration `for x in v`: lists yield their elements, strings their
one-character substrings, dicts their keys; other values raise `TypeError`. -/
def pyIter : Json → Except PErr (List Json)
  | .list xs => .ok xs
  | .str s => .ok (s.data.map (fun c => .str (String.mk [c])))
  | .obj kvs => .ok (kvs.map (fun kv => .str kv.1))
  | _ => .error .typeError

/-- Python `==` on our values, with explicit recursion fuel (see the module
comment).  Booleans compare equal to the integers 0/1 as in Python; values of
unrelated types compare unequal without raising. -/
def pyEqFuel : Nat → Json → Json → Bool
  | _ + 1, .null, .null => true
  | _ + 1, .bool a, .bool b => a == b
  | _ + 1, .bool a, .num n => (if a then (1 : Int) else 0) == n
  | _ + 1, .num n, .bool a => n == (if a then (1 : Int) else 0)
  | _ + 1, .num a, .num b => a == b
  | _ + 1, .str a, .str b => a == b
  | f + 1, .list (a :: as), .list (b :: bs) =>
      pyEqFuel f a b && pyEqFuel f (.list as) (.list bs)
  | _ + 1, .list [], .list [] => true
  | f + 1, .obj ((k, a) :: as), .obj ((k', b) :: bs) =>
      k == k' && pyEqFuel f a b && pyEqFuel f (.obj as) (.obj bs)
  | _ + 1, .obj [], .obj [] => true
  | _ + 1, _, _ => false
  | 0, _, _ => false

/-- Python `==`. -/
def pyEq (a b : Json) : Bool := pyEqFuel 1000000 a b

/-- Code-point comparison of character lists: Python string `<`. -/
def strLtChars : List Char → List Char → Bool
  | [], [] => false
  | [], _ :: _ => true
  | _ :: _, [] => false
  | c :: cs, d :: ds =>
      if c.toNat < d.toNat then true
      else if d.toNat < c.toNat then false
      else strLtChars cs ds

/-- Python string `<` (lexicographic by code point). -/
def strLt (a b : String) : Bool := strLtChars a.data b.data

/-- Python `<` on our values, with fuel for list recursion.  Numbers and
booleans compare as integers, strings by code point, lists lexicographically;
every other combination raises `TypeError` (in particular `None`, dicts, and
mixed number/string operands). -/
def pyLtFuel : Nat → Json → Json → Except PErr Bool
  | _ + 1, .num a, .num b => .ok (decide (a < b))
  | _ + 1, .bool a, .num b => .ok (decide ((if a then (1 : Int) else 0) < b))
  | _ + 1, .num a, .bool b => .ok (decide (a < (if b then (1 : Int) else 0)))
  | _ + 1, .bool a, .bool b => .ok (decide ((if a then (1 : Int) else 0) < (if b then (1 : Int) else 0)))
  | _ + 1, .str a, .str b => .ok (strLt a b)
  | _ + 1, .list [], .list [] => .ok false
  | _ + 1, .list [], .list (_ :: _) => .ok true
  | _ + 1, .list (_ :: _), .list [] => .ok false
  | f + 1, .list (a :: as), .list (b :: bs) =>
      if pyEqFuel f a b then pyLtFuel f (.list as) (.list bs) else pyLtFuel f a b
  | _ + 1, _, _ => .error .typeError
  | 0, _, _ => .error .typeError

/-- Python `<`. -/
def pyLt (a b : Json) : Except PErr Bool := pyLtFuel 1000000 a b

/-- Python `str(x)` restricted to the values the sort keys can hold.  The
claims only exercise `str` on `None`, booleans, integers and strings; the
rendering of nested containers is abstracted to a placeholder since no theorem
depends on it. -/
def pyStr : Json → String
  | .null => "None"
  | .bool true => "True"
  | .bool false => "False"
  | .num n => toString n
  | .str s => s
  | .list _ => "[...]"
  | .obj _ => "\x7b...\x7d"

/-- Strict comparison of the sort-key tuples `(house value, planet string)`
built by the `key=lambda r: (..., str(r["Planet"]))` lambdas: Python tuple `<`
first tests the head components with `==` and, only when they differ, compares
them with `<` (which can raise `TypeError`); equal heads defer to the string
components, which always compare. -/
def ltK : Json × String → Json × String → Except PErr Bool
  | (a, s), (b, t) => if pyEq a b then .ok (strLt s t) else pyLt a b

/-- Non-strict order derived from a fallible strict one, as used by a stable
sort driven by `<`: `a` may stay before `b` unless `b < a` definitely holds. -/
def leOf (lt : κ → κ → Except PErr Bool) (a b : κ) : Bool :=
  match lt b a with
  | .ok true => false
  | _ => true

/-- Insertion of `x` at position `i`: the list analogue of the `memmove` in
CPython's `binarysort`. -/
def insertAt (i : Nat) (x : α) (l : List α) : List α := l.take i ++ x :: l.drop i

/-- The binary-search loop of CPython's `binarysort` (`Objects/listobject.c`):
locate the insertion point of the key `k` within the sorted key prefix `ks`
between `l` and `r`, comparing `k < ks[p]` at the midpoint `p`.  A raising
comparison aborts the whole sort before any element of this step has moved.
The fuel only bounds the loop: the interval halves each step, so
`ks.length + 1` always suffices. -/
def bsF (lt : κ → κ → Except PErr Bool) (k : κ) (ks : List κ) :
    Nat → Nat → Nat → Except PErr Nat
  | 0, l, _ => .ok l
  | fuel + 1, l, r =>
    if l < r then
      match ks.get? ((l + r) / 2) with
      | none => .ok l
      | some kp =>
        match lt k kp with
        | .error e => .error e
        | .ok true => bsF lt k ks fuel l ((l + r) / 2)
        | .ok false => bsF lt k ks fuel ((l + r) / 2 + 1) r
    else .ok l

/-- The insertion phase of CPython's `binarysort`: extend the sorted prefix
`pre` one element at a time; a comparison that raises leaves the sorted
prefix followed by the untouched remainder and reports the exception. -/
def binInsPhase (lt : κ → κ → Except PErr Bool) (key : α → κ) :
    List α → List α → List α × Option PErr
  | pre, [] => (pre, none)
  | pre, x :: rest =>
    match bsF lt (key x) (pre.map key) (pre.length + 1) 0 pre.length with
    | .error e => (pre ++ x :: rest, some e)
    | .ok i => binInsPhase lt key (insertAt i x pre) rest

/-- The run-extension loop of CPython's `count_run`: keep taking elements
while the next compares `<` the current exactly when the run is descending.
A raising comparison propagates (the list has not been touched yet). -/
def extendRun (lt : κ → κ → Except PErr Bool) (key : α → κ) (desc : Bool) :
    α → List α → Except PErr (List α × List α)
  | _, [] => .ok ([], [])
  | cur, x :: rest =>
    match lt (key x) (key cur) with
    | .error e => .error e
    | .ok b =>
      if b = desc then
        (extendRun lt key desc x rest).map fun rr => (x :: rr.1, rr.2)
      else .ok ([], x :: rest)

/-- CPython's `count_run`: the maximal initial ascending run, or the maximal
STRICTLY descending initial run reversed (the reversal happens only after the
run is fully counted, so a raise leaves the list unchanged). -/
def countRun (lt : κ → κ → Except PErr Bool) (key : α → κ) :
    List α → Except PErr (List α × List α)
  | [] => .ok ([], [])
  | [a] => .ok ([a], [])
  | a :: b :: rest =>
    match lt (key b) (key a) with
    | .error e => .error e
    | .ok true =>
      (extendRun lt key true b rest).map fun rr => ((a :: b :: rr.1).reverse, rr.2)
    | .ok false =>
      (extendRun lt key false b rest).map fun rr => (a :: b :: rr.1, rr.2)

/-- CPython `list.sort(key=...)` at the sizes these tables reach (below 64
elements Timsort picks minrun = n, so the whole sort is one `count_run`
followed by `binarysort` and no merge step runs; the model adopts that shape
uniformly): the final list state together with the raised exception, if any.
On an exception the list keeps the initial run sorted and the binary
insertions applied so far — partially reordered, NOT the original input
order. -/
def pyListSort (lt : κ → κ → Except PErr Bool) (key : α → κ) (rows : List α) :
    List α × Option PErr :=
  match countRun lt key rows with
  | .error e => (rows, some e)
  | .ok (run, rest) => binInsPhase lt key run rest

/-- Model of `try: rows.sort(key=...) except Exception: pass`: the sort's
final list state, any exception swallowed. -/
def pySortKeyed (lt : κ → κ → Except PErr Bool) (key : α → κ) (rows : List α) : List α :=
  (pyListSort lt key rows).1

/-- One row of the divisional-positions table (`app.py` lines 53-67); field
order follows the dict literal in the source.  `retro` is the final
`bool(retro) if retro is not None else None` value. -/
structure DivRow where
  houseNo : Json
  house : Json
  rasi : Json
  rasiLord : Json
  planet : Json
  planetVedic : Json
  nakshatra : Json
  nakshatraLord : Json
  pada : Json
  degree : Json
  retro : Option Bool
deriving Repr

/-- One row of the kundli planets table (`app.py` lines 106-119). -/
structure KPRow where
  houseNo : Json
  planet : Json
  planetVedic : Json
  rasi : Json
  rasiLord : Json
  nakshatra : Json
  nakshatraLord : Json
  pada : Json
  degree : Json
  retro : Option Bool
deriving Repr

/-- One row of the kundli houses table (`app.py` line 144). -/
structure KHRow where
  houseNo : Json
  house : Json
  rasi : Json
  degree : Json
deriving Repr

/-- Python `x is None` on our values. -/
def isNull : Json → Bool
  | .null => true
  | _ => false

/-- Sort key of `flatten_divisional_positions` (`app.py` line 69). -/
def divKey (r : DivRow) : Json × String :=
  (if isNull r.houseNo then .num 99 else r.houseNo, pyStr r.planet)

/-- Sort key of `flatten_kundli_planets` (`app.py` line 121). -/
def kpKey (r : KPRow) : Json × String :=
  (if isNull r.houseNo then .num 99 else r.houseNo, pyStr r.planet)

/-- Sort key of `flatten_kundli_houses` (`app.py` line 146): scalar, no
planet-name component. -/
def khKey (r : KHRow) : Json :=
  if isNull r.houseNo then .num 99 else r.houseNo

/-- The retrograde resolution shared by both planet flatteners (`app.py`
lines 47-51 and 101-105) combined with the `"Retro"` cell construction
`bool(retro) if retro is not None else None`: `retro`, then `is_retro`
(each tested with `is None`), then the boolean `motion == "retrograde"`. -/
def retroOf (p : Json) : Except PErr (Option Bool) := do
  let r ← pyGet p "retro"
  match r with
  | .null => do
    let r2 ← pyGet p "is_retro"
    match r2 with
    | .null => do
        let m ← pyGet p "motion"
        pure (some (pyEq m (.str "retrograde")))
    | v => pure (some (truthy v))
  | v => pure (some (truthy v))

/-- Loop body of `flatten_kundli_planets` (`app.py` lines 86-119), evaluated
in source order so that the first Python exception is the one raised. -/
def kpRowOf (p : Json) : Except PErr KPRow := do
  let planet ← pyOrM (pyGet p "planet") (.ok p)
  let planetName ← pyOrM (pyGet planet "name") (pyGet planet "vedic_name")
  let planetVedic ← pyOrM (pyGet planet "vedic_name") (.ok (.str ""))
  let sign ← pyOrM (pyGet p "sign") (pyOrM (pyGet p "rasi") (pyOrM (pyGet p "zodiac") (.ok (.obj []))))
  let signName ← pyGet sign "name"
  let signLord ← pyOrM (pyGet sign "lord") (.ok (.obj []))
  let signLordName ← pyOrM (pyGet signLord "vedic_name") (pyGet signLord "name")
  let nak ← pyOrM (pyGet p "nakshatra") (.ok (.obj []))
  let nakName ← pyGet nak "name"
  let nakLord ← pyOrM (pyGet nak "lord") (.ok (.obj []))
  let nakLordName ← pyOrM (pyGet nakLord "vedic_name") (pyGet nakLord "name")
  let pada ← pyOrM (pyGet nak "pada") (pyGet p "pada")
  let degree ← pyOrM (pyGet p "degree") (pyOrM (pyGet p "longitude")
      (do let pos ← pyOrM (pyGet p "position") (.ok (.obj [])); pyGet pos "degree"))
  let houseNo ← do
    let h ← pyOrM (pyGet p "house") (.ok (.obj []))
    pyGet h "number"
  let retro ← retroOf p
  pure ⟨houseNo, planetName, planetVedic, signName, signLordName, nakName,
        nakLordName, pada, degree, retro⟩

/-- First key of `keys` whose value under `root` is a list, returning its
elements; models the `for key in [...]: v = root.get(key); if isinstance(v,
list): ... break` scans of `app.py` (lines 78-82, 129-135, 232-236). -/
def firstListUnder (root : Json) : List String → Except PErr (Option (List Json))
  | [] => .ok none
  | k :: ks => do
    let v ← pyGet root k
    match v with
    | .list xs => pure (some xs)
    | _ => firstListUnder root ks

/-- The `flatten_kundli_planets` function of `app.py` (lines 75-124). -/
def flatten_kundli_planets (respJson : Json) : Except PErr (List KPRow) := do
  let root ← pyGetD respJson "data" respJson
  let candidates ← firstListUnder root
      ["planets", "planet_positions", "grahas", "graha_positions", "bodies"]
  match candidates with
  | none => pure []
  | some [] => pure []
  | some ps => do
      let rows ← ps.mapM kpRowOf
      pure (pySortKeyed ltK kpKey rows)

/-- Inner loop body of `flatten_divisional_positions` (`app.py` lines
31-67): one row per planet position `p`, given the already-computed
house-level fields. -/
def divPlanetRowOf (houseNo houseName rasiName rasiLordName p : Json) :
    Except PErr DivRow := do
  let planet ← pyOrM (pyGet p "planet") (.ok (.obj []))
  let nak ← pyOrM (pyGet p "nakshatra") (.ok (.obj []))
  let planetName ← pyOrM (pyGet planet "name") (pyGet planet "vedic_name")
  let planetVedic ← pyOrM (pyGet planet "vedic_name") (.ok (.str ""))
  let nakName ← pyGet nak "name"
  let nakLord ← pyOrM (pyGet nak "lord") (.ok (.obj []))
  let nakLordName ← pyOrM (pyGet nakLord "vedic_name") (pyGet nakLord "name")
  let pada ← pyOrM (pyGet nak "pada") (pyGet p "pada")
  let degree ← pyOrM (pyGet p "degree") (pyOrM (pyGet p "longitude")
      (do let pos ← pyOrM (pyGet p "position") (.ok (.obj [])); pyGet pos "degree"))
  let retro ← retroOf p
  pure ⟨houseNo, houseName, rasiName, rasiLordName, planetName, planetVedic,
        nakName, nakLordName, pada, degree, retro⟩

/-- Per-house body of the `flatten_divisional_positions` loop (`app.py`
lines 21-67): house-level fields, then one row per planet position. -/
def divRowsOfHouse (house : Json) : Except PErr (List DivRow) := do
  let houseInfo ← pyOrM (pyGetD house "house" (.obj [])) (.ok (.obj []))
  let rasiInfo ← pyOrM (pyGetD house "rasi" (.obj [])) (.ok (.obj []))
  let rasiLord ← pyOrM (pyGet rasiInfo "lord") (.ok (.obj []))
  let houseNo ← pyGet houseInfo "number"
  let houseName ← pyGet houseInfo "name"
  let rasiName ← pyGet rasiInfo "name"
  let rasiLordName ← pyOrM (pyGet rasiLord "vedic_name") (pyGet rasiLord "name")
  let pps ← pyOrM (pyGet house "planet_positions") (.ok (.list []))
  let ps ← pyIter pps
  ps.mapM (divPlanetRowOf houseNo houseName rasiName rasiLordName)

/-- The `flatten_divisional_positions` function of `app.py` (lines 17-72). -/
def flatten_divisional_positions (respJson : Json) : Except PErr (List DivRow) := do
  let root ← pyGetD respJson "data" respJson
  let positions ← pyOrM (pyGet root "divisional_positions")
      (pyOrM (pyGet root "positions") (.ok (.list [])))
  let houses ← pyIter positions
  let rowss ← houses.mapM divRowsOfHouse
  pure (pySortKeyed ltK divKey rowss.flatten)

/-- Loop body of `flatten_kundli_houses` (`app.py` lines 137-144). -/
def khRowOf (h : Json) : Except PErr KHRow := do
  let houseInfo ← pyOrM (pyGetD h "house" h) (.ok (.obj []))
  let number ← pyOrM (pyGet houseInfo "number") (pyGet h "number")
  let name ← pyOrM (pyGet houseInfo "name") (pyGet h "name")
  let rasi ← pyOrM (pyGet h "rasi") (pyOrM (pyGet h "sign") (.ok (.obj [])))
  let rasiName ← pyGet rasi "name"
  let degree ← pyOrM (pyGet h "degree") (pyOrM (pyGet h "longitude")
      (do let cusp ← pyOrM (pyGet h "cusp") (.ok (.obj [])); pyGet cusp "degree"))
  pure ⟨number, name, rasiName, degree⟩

/-- The `flatten_kundli_houses` function of `app.py` (lines 127-149); the
`for ... else: return []` finds the first recognised list key, and an empty
found list simply yields no rows. -/
def flatten_kundli_houses (respJson : Json) : Except PErr (List KHRow) := do
  let root ← pyGetD respJson "data" respJson
  let houses ← firstListUnder root ["houses", "bhavas", "house_positions", "bhava_positions"]
  match houses with
  | none => pure []
  | some hs => do
      let rows ← hs.mapM khRowOf
      pure (pySortKeyed pyLt khKey rows)

/-- Numeric code of an instant, ordered chronologically for valid
year/month/day/hour/minute/second components. -/
def encDT (y mo d h mi s : Nat) : Nat :=
  ((((y * 100 + mo) * 100 + d) * 100 + h) * 100 + mi) * 100 + s

/-- Digit value of an ASCII digit character. -/
def digitVal (c : Char) : Nat := c.toNat - '0'.toNat

/-- Two-digit number from two digit characters. -/
def twoDig (a b : Char) : Nat := digitVal a * 10 + digitVal b

/-- Parse of an ISO `YYYY-MM-DD` or `YYYY-MM-DDTHH:MM:SS` character list with
plausibility ranges, as accepted by `pd.to_datetime`. -/
def parseIsoChars : List Char → Option Nat
  | [y1, y2, y3, y4, '-', m1, m2, '-', d1, d2] =>
      if y1.isDigit && y2.isDigit && y3.isDigit && y4.isDigit &&
         m1.isDigit && m2.isDigit && d1.isDigit && d2.isDigit &&
         1 ≤ twoDig m1 m2 && twoDig m1 m2 ≤ 12 &&
         1 ≤ twoDig d1 d2 && twoDig d1 d2 ≤ 31 then
        some (encDT (twoDig y1 y2 * 100 + twoDig y3 y4) (twoDig m1 m2) (twoDig d1 d2) 0 0 0)
      else none
  | [y1, y2, y3, y4, '-', m1, m2, '-', d1, d2, 'T', h1, h2, ':', n1, n2, ':', s1, s2] =>
      if y1.isDigit && y2.isDigit && y3.isDigit && y4.isDigit &&
         m1.isDigit && m2.isDigit && d1.isDigit && d2.isDigit &&
         h1.isDigit && h2.isDigit && n1.isDigit && n2.isDigit &&
         s1.isDigit && s2.isDigit &&
         1 ≤ twoDig m1 m2 && twoDig m1 m2 ≤ 12 &&
         1 ≤ twoDig d1 d2 && twoDig d1 d2 ≤ 31 &&
         twoDig h1 h2 ≤ 23 && twoDig n1 n2 ≤ 59 && twoDig s1 s2 ≤ 59 then
        some (encDT (twoDig y1 y2 * 100 + twoDig y3 y4) (twoDig m1 m2) (twoDig d1 d2)
          (twoDig h1 h2) (twoDig n1 n2) (twoDig s1 s2))
      else none
  | _ => none

/-- The `_parse_dt` helper of `app.py` (lines 202-206): `pd.to_datetime`
under `try/except` returning `None` on failure.  `pd.to_datetime` is modelled
on ISO date and date-time strings; every other value yields `none`, which has
the same effect as the source (the enclosing interval test rejects the
period, whether because parsing raised, returned `NaT`, or the value was
never a timestamp). -/
def parse_dt : Json → Option Nat
  | .str s => parseIsoChars s.data
  | _ => none

/-- Body of the `for p in periods` loop of `_find_period_covering` (`app.py`
lines 213-217): first period whose parsed bounds enclose `nowTs`. -/
def findIn : List Json → Nat → Except PErr (Option Json)
  | [], _ => .ok none
  | p :: ps, nowTs => do
    let sv ← pyOrM (pyGet p "start") (pyOrM (pyGet p "start_time") (pyGet p "from"))
    let ev ← pyOrM (pyGet p "end") (pyOrM (pyGet p "end_time") (pyGet p "to"))
    match parse_dt sv, parse_dt ev with
    | some s, some e =>
        if s ≤ nowTs && nowTs ≤ e then pure (some p) else findIn ps nowTs
    | _, _ => findIn ps nowTs

/-- The `_find_period_covering` function of `app.py` (lines 209-218). -/
def find_period_covering (periods : Json) (nowTs : Nat) : Except PErr (Option Json) :=
  match periods with
  | .list ps => findIn ps nowTs
  | _ => .ok none

/-- Dict lookup defaulting to `None`, total: the value of `j[k]` when `j` is a
dict holding `k`, `Json.null` otherwise.  Used to state properties and as the
`isinstance(v, dict)`-guarded accesses of `current_dasha_chain`. -/
def objGetD (j : Json) (k : String) : Json :=
  match j with
  | .obj kvs => (lookupJ kvs k).getD .null
  | _ => .null

/-- Is the value a dict (`isinstance(x, dict)`). -/
def isObjB : Json → Bool
  | .obj _ => true
  | _ => false

/-- Is the value a list (`isinstance(x, list)`). -/
def isListB : Json → Bool
  | .list _ => true
  | _ => false

/-- The nested fallback scan of `current_dasha_chain` (`app.py` lines
238-246): walk the values of the root dict in insertion order and return the
first list found under one of three keys one level down.  Only reached with a
dict root (a non-dict root already raised in the alias scan above it). -/
def nestedScan (root : Json) : Option (List Json) :=
  match root with
  | .obj kvs => scanVals (kvs.map (fun kv => kv.2))
  | _ => none
where
  inner (v : Json) : List String → Option (List Json)
    | [] => none
    | k :: ks =>
        match objGetD v k with
        | .list xs => some xs
        | _ => inner v ks
  scanVals : List Json → Option (List Json)
    | [] => none
    | v :: vs =>
        if isObjB v then
          match inner v ["periods", "dasha_periods", "mahadasha"] with
          | some l => some l
          | none => scanVals vs
        else scanVals vs

/-- Result record of `current_dasha_chain` (its 6-tuple return value). -/
structure DashaChain where
  md : Option Json
  ad : Option Json
  pd : Option Json
  allAd : Json
  allPd : Json
  balance : Json
deriving Repr

/-- Lines 249-256 of `current_dasha_chain`, given the already-found current
mahadasha `md`: resolve the antardasha and pratyantardasha tiers and the
balance, and assemble the 6-tuple result.  The `isinstance(current_md,
dict)`-guarded child access is `objGetD`, which is `null` exactly when the
guard fails or the key is absent, as in the source; `current_ad =
_find_period_covering(all_ad, now_ts) if all_ad else None` is the truthiness
test on the child list. -/
def dashaTail (root : Json) (nowTs : Nat) (md : Option Json) : Except PErr DashaChain :=
  let allAd : Json := match md with
    | some j => objGetD j "antardasha"
    | none => .null
  (if truthy allAd then find_period_covering allAd nowTs else pure none) >>= fun ad =>
  let allPd : Json := match ad with
    | some j => objGetD j "pratyantardasha"
    | none => .null
  (if truthy allPd then find_period_covering allPd nowTs else pure none) >>= fun pd =>
  pyOrM (pyGet root "dasha_balance") (.ok (.obj [])) >>= fun balance =>
  pure ⟨md, ad, pd,
        if truthy allAd then allAd else .list [],
        if truthy allPd then allPd else .list [],
        balance⟩

/-- The `current_dasha_chain` function of `app.py` (lines 221-256), written
with explicit matches on each fallible step: unwrap the root, find the
mahadasha period list (alias scan, then nested scan), locate the covering
mahadasha (`if periods` is the truthiness test: `None` and the empty list
both skip the search), and resolve the lower tiers via `dashaTail`. -/
def current_dasha_chain (respJson : Json) (nowTs : Nat) : Except PErr DashaChain :=
  pyGetD respJson "data" respJson >>= fun root =>
  firstListUnder root ["periods", "dasha_periods", "dasha", "mahadasha", "maha_dasha", "md"] >>= fun direct =>
  let periods : Option (List Json) :=
    match direct with
    | some l => some l
    | none => nestedScan root
  (match periods with
   | some ps => if ps.isEmpty then pure none else findIn ps nowTs
   | none => pure none) >>= fun md =>
  dashaTail root nowTs md

/-- The regular-expression match and substitution of `_force_jan1`
(`kundli_services.py` lines 53-60).  The pattern
`(\d{4})-(\d{2})-(\d{2})T(\d{2}:\d{2}:\d{2})([+-]\d{2}:\d{2})$` is matched by
`re.match`, so it is anchored at the start, `\d` is a digit, and the final `$`
matches at the end of the string or just before one trailing newline (Python
`re` semantics); the captured groups never include that newline.  Returns the
rewritten character list on a match and `none` otherwise. -/
def fjRewrite : List Char → Option (List Char)
  | y1 :: y2 :: y3 :: y4 :: '-' :: m1 :: m2 :: '-' :: d1 :: d2 :: 'T' ::
    h1 :: h2 :: ':' :: n1 :: n2 :: ':' :: s1 :: s2 :: sg :: o1 :: o2 :: ':' :: p1 :: p2 :: rest =>
      if y1.isDigit && y2.isDigit && y3.isDigit && y4.isDigit &&
         m1.isDigit && m2.isDigit && d1.isDigit && d2.isDigit &&
         h1.isDigit && h2.isDigit && n1.isDigit && n2.isDigit &&
         s1.isDigit && s2.isDigit && (sg == '+' || sg == '-') &&
         o1.isDigit && o2.isDigit && p1.isDigit && p2.isDigit &&
         (rest.isEmpty || rest == ['\n']) then
        some ([y1, y2, y3, y4] ++ "-01-01T".data ++
              [h1, h2, ':', n1, n2, ':', s1, s2, sg, o1, o2, ':', p1, p2])
      else none
  | _ => none

/-- The `_force_jan1` static method of `ProkeralaClient`
(`kundli_services.py` lines 53-60): rewrite a matching timestamp to January
1st of the same year, otherwise return the input unchanged. -/
def force_jan1 (s : String) : String :=
  match fjRewrite s.data with
  | some cs => String.mk cs
  | none => s

/-- One HTTP response: its status code, its body as parsed JSON when
`resp.json()` succeeds (`none` models a body that raises on `.json()`), and
its raw text `resp.text`. -/
structure Resp where
  status : Nat
  body : Option Json
  raw : String

/-- Errors escaping an endpoint method: `requests.HTTPError` carrying the
status and the parsed-or-raw body (`kundli_services.py` lines 111-115 and
twins), or a JSON decode error from calling `.json()` on a successful
response whose body is not JSON. -/
inductive FetchErr where
  | httpError (status : Nat) (detail : Json ⊕ String)
  | jsonDecodeError
deriving Repr

/-- The `detail` computed before raising: `resp.json()` if the body parses,
else `resp.text`. -/
def detailOf (r : Resp) : Json ⊕ String :=
  match r.body with
  | some j => .inl j
  | none => .inr r.raw

/-- The generator test `any(e.get("code") == "1004" for e in ...)`:
short-circuits on the first hit, raises `AttributeError` if a traversed
element is not a dict. -/
def anyCode1004 : List Json → Except PErr Bool
  | [] => .ok false
  | e :: es => do
    let c ← pyGet e "code"
    if pyEq c (.str "1004") then pure true else anyCode1004 es

/-- The body-inspection part of the sandbox test, given the parsed JSON
`msg`: `any(e.get("code") == "1004" for e in msg.get("errors", []))`.  The
iteration over `msg.get("errors", [])` can raise `TypeError` (non-iterable)
or `AttributeError` (elements without `.get`), which the enclosing
`except Exception: pass` turns into plain propagation. -/
def errors1004 (msg : Json) : Except PErr Bool := do
  let errs ← pyGetD msg "errors" (.list [])
  let es ← pyIter errs
  anyCode1004 es

/-- The `get_chart_svg` method of `ProkeralaClient` (`kundli_services.py`
lines 63-115), abstracted over the transport: `call dtv` is the response of
the GET request with `datetime=dtv` (all other query parameters are fixed for
the lifetime of one method call).  A success returns `resp.text`; the
sandbox retry requires status exactly 400, a dict JSON body, and an error
object with code `"1004"`; any exception inside the `try` block (including a
failing retry, via `raise_for_status`) falls through to re-raising an
`HTTPError` built from the FIRST response. -/
def get_chart_svg (call : String → Resp) (dtv : String) : Except FetchErr (String × Bool) :=
  let resp := call dtv
  if resp.status < 400 then .ok (resp.raw, false)
  else
    let propagate : Except FetchErr (String × Bool) :=
      .error (.httpError resp.status (detailOf resp))
    match resp.body with
    | none => propagate
    | some msg =>
      if resp.status == 400 && isObjB msg then
        match errors1004 msg with
        | .error _ => propagate
        | .ok false => propagate
        | .ok true =>
          let resp2 := call (force_jan1 dtv)
          if resp2.status < 400 then .ok (resp2.raw, true) else propagate
      else propagate

/-- The `get_dasha_periods` method of `ProkeralaClient`
(`kundli_services.py` lines 216-266); `get_divisional_planet_position` and
`get_kundli` have the identical body.  Unlike the chart endpoint the payload
is `resp.json()`, so a successful response with a non-JSON body raises a
decode error, and a successful RETRY with a non-JSON body raises inside the
`try` block and therefore falls through to the `HTTPError` built from the
first response. -/
def get_dasha_periods (call : String → Resp) (dtv : String) : Except FetchErr (Json × Bool) :=
  let resp := call dtv
  if resp.status < 400 then
    match resp.body with
    | some j => .ok (j, false)
    | none => .error .jsonDecodeError
  else
    let propagate : Except FetchErr (Json × Bool) :=
      .error (.httpError resp.status (detailOf resp))
    match resp.body with
    | none => propagate
    | some msg =>
      if resp.status == 400 && isObjB msg then
        match errors1004 msg with
        | .error _ => propagate
        | .ok false => propagate
        | .ok true =>
          let resp2 := call (force_jan1 dtv)
          if resp2.status < 400 then
            match resp2.body with
            | some j => .ok (j, true)
            | none => propagate
          else propagate
      else propagate

/-- The value the source code feeds to `_parse_dt` for a period dict `p` and
an alias chain `k1 or k2 or k3` of dict gets: the first Python-truthy value,
and the value of the last key when every alias is falsy (Python `or` yields
its last operand). -/
def chainVal (p : Json) : List String → Json
  | [] => .null
  | [k] => objGetD p k
  | k :: ks => if truthy (objGetD p k) then objGetD p k else chainVal p ks

/-- The reading used by the claim text: the value of the first PRESENT key of
the alias list, regardless of its truthiness (`Json.null` when none is
present).  Differs from `chainVal` exactly on present-but-falsy values. -/
def firstPresentVal (p : Json) (keys : List String) : Json :=
  match p with
  | .obj kvs =>
      match keys.findSome? (fun k => lookupJ kvs k) with
      | some v => v
      | none => .null
  | _ => .null

/-- Does the period dict `p` cover the instant `nowTs`: both bounds (read
through the alias chains the source uses) parse, and `start ≤ nowTs ≤ end`. -/
def coveredB (p : Json) (nowTs : Nat) : Bool :=
  match parse_dt (chainVal p ["start", "start_time", "from"]),
        parse_dt (chainVal p ["end", "end_time", "to"]) with
  | some s, some e => decide (s ≤ nowTs) && decide (nowTs ≤ e)
  | _, _ => false

/-- The retrograde value of a row built from the planet element `p`, as the
source computes it (total on dicts): `retro` if not `None`, else `is_retro`
if not `None`, else the boolean `motion == "retrograde"`; the final cell is
`bool(retro)` of that value.  Never `none`. -/
def retroResolve (p : Json) : Option Bool :=
  match objGetD p "retro" with
  | .null =>
      match objGetD p "is_retro" with
      | .null => some (pyEq (objGetD p "motion") (.str "retrograde"))
      | v => some (truthy v)
  | v => some (truthy v)

/-- The degree value of a row built from the element `p`, as the source
computes it on a dict whose `position` value (when reached) is a dict or
falsy: first truthy of `degree`, `longitude`, `position.degree`; the final
fallback is returned even when falsy. -/
def degreeResolve (p : Json) : Json :=
  if truthy (objGetD p "degree") then objGetD p "degree"
  else if truthy (objGetD p "longitude") then objGetD p "longitude"
  else objGetD (if truthy (objGetD p "position") then objGetD p "position" else .obj []) "degree"

/-- Does a response carry the sandbox signal in the sense of the source
condition: JSON dict body with some error object of code `"1004"` (evaluated
without raising). -/
def sandbox1004 (r : Resp) : Bool :=
  match r.body with
  | none => false
  | some msg =>
      isObjB msg &&
      (match errors1004 msg with
       | .ok b => b
       | .error _ => false)

/-- Does a string exactly match the shape `YYYY-MM-DDTHH:MM:SS+HH:MM` or
`YYYY-MM-DDTHH:MM:SS-HH:MM` (the pattern as written in the claim text, with
no trailing characters at all). -/
def fmtExact (s : String) : Bool :=
  match s.data with
  | [y1, y2, y3, y4, '-', m1, m2, '-', d1, d2, 'T',
     h1, h2, ':', n1, n2, ':', s1, s2, sg, o1, o2, ':', p1, p2] =>
      y1.isDigit && y2.isDigit && y3.isDigit && y4.isDigit &&
      m1.isDigit && m2.isDigit && d1.isDigit && d2.isDigit &&
      h1.isDigit && h2.isDigit && n1.isDigit && n2.isDigit &&
      s1.isDigit && s2.isDigit && (sg == '+' || sg == '-') &&
      o1.isDigit && o2.isDigit && p1.isDigit && p2.isDigit
  | _ => false

/-! ### Generic lemmas about the embedded primitives -/

/-- A sort key whose house component is a number (the only case the ordering
claims are about: a known integer house, or the sentinel 99). -/
def numKey (k : Json × String) : Prop := ∃ n : Int, k.1 = .num n

/-- Period whose `start` key is present but empty (falsy): the code falls
through to `start_time`, a claim-side reading of the first PRESENT key does
not. -/
def pEx : Json := .obj [("start", .str ""), ("start_time", .str "2000-01-01"), ("end", .str "2002-01-01")]

/-- A plainly covering period. -/
def pOk : Json := .obj [("start", .str "2000-01-01"), ("end", .str "2002-01-01")]

/-- Antardasha period of the dasha scenario (Venus, 2001). -/
def adV : Json := .obj [("lord", .str "Venus"), ("start", .str "2001-01-01"), ("end", .str "2002-01-01")]

/-- Mahadasha period of the dasha scenario (Ketu, 2000-2007, one child). -/
def mdK : Json := .obj [("lord", .str "Ketu"), ("start", .str "2000-01-01"), ("end", .str "2007-01-01"),
                        ("antardasha", .list [adV])]

/-- The dasha-periods response of the scenario. -/
def dashaScenario : Json := .obj [("mahadasha", .list [mdK])]

/-- Row produced for a planet element with no recognized keys at all. -/
def kpZeroRow : KPRow := ⟨.null, .null, .str "", .null, .null, .null, .null, .null, .null, some false⟩

/-- Divisional row produced for a planet-position element with no recognized
keys, under a house element carrying nothing but the position list. -/
def divZeroRow : DivRow := ⟨.null, .null, .null, .null, .null, .str "", .null, .null, .null, .null, some false⟩

/-- `resp_json.get("data", resp_json)` for a dict input. -/
def dataRoot (kvs : List (String × Json)) : Json := (lookupJ kvs "data").getD (.obj kvs)

/-- A house cell the ordering claim can speak about: missing, or an integer
below the sentinel 99 the source uses for missing houses. -/
def KnownOrMissing (hn : Json) : Prop := hn = .null ∨ ∃ n : Int, hn = .num n ∧ n < 99

/-- A known-house row used by the sorting witness. -/
def rKnown : KPRow := ⟨.num 5, .str "a", .str "", .null, .null, .null, .null, .null, .null, none⟩

/-- A missing-house row used by the sorting witness. -/
def rMissing : KPRow := ⟨.null, .str "b", .str "", .null, .null, .null, .null, .null, .null, none⟩

/-- A divisional row with the given house cell and planet name, as the
sorting counterexample builds them. -/
def rowH (hn : Json) (p : String) : DivRow :=
  ⟨hn, .null, .null, .null, .str p, .str "", .null, .null, .null, .null, none⟩

/-- Input of the sorting counterexample: house keys 2, 1, 3, "x", 0 in that
order. -/
def sortCexRows : List DivRow :=
  [rowH (.num 2) "a", rowH (.num 1) "b", rowH (.num 3) "c",
   rowH (.str "x") "d", rowH (.num 0) "e"]

/-- A 400 body carrying the sandbox error code. -/
def body1004 : Json := .obj [("errors", .list [.obj [("code", .str "1004")]])]

/-- Transport returning 500 with a 1004 body on the original timestamp and a
success on the substituted one. -/
def cex500Call : String → Resp := fun s =>
  if s == "2001-12-29T06:06:00+05:30" then ⟨500, some body1004, "raw"⟩
  else ⟨200, some (.obj []), "OK"⟩

/-- Transport returning 400 with a 1004 body on the original timestamp and a
success on the substituted one. -/
def cex400Call : String → Resp := fun s =>
  if s == "2001-12-29T06:06:00+05:30" then ⟨400, some body1004, "raw"⟩
  else ⟨200, some (.obj [("d", .num 1)]), "OK"⟩

theorem exbind_ok {α β : Type} {x : Except PErr α} {f : α → Except PErr β} {b : β} :
    (x >>= f) = .ok b ↔ ∃ a, x = .ok a ∧ f a = .ok b := by
  cases x <;> simp [Bind.bind, Except.bind]

theorem expure_ok {α : Type} {a b : α} :
    (pure a : Except PErr α) = .ok b ↔ a = b := by
  constructor
  · intro h
    cases h
    rfl
  · intro h
    cases h
    rfl

theorem pyGet_of_obj {j : Json} (h : isObjB j = true) (k : String) :
    pyGet j k = .ok (objGetD j k) := by
  cases j <;> simp [isObjB] at h ⊢
  rfl

theorem orChain3_of_obj {j : Json} (h : isObjB j = true) (k1 k2 k3 : String) :
    pyOrM (pyGet j k1) (pyOrM (pyGet j k2) (pyGet j k3)) =
      .ok (chainVal j [k1, k2, k3]) := by
  rw [pyGet_of_obj h, pyGet_of_obj h, pyGet_of_obj h]
  simp only [pyOrM, chainVal]
  split
  · rfl
  · split <;> rfl

/-! ### The sort model: permutation in every case -/

theorem isOk_exists {α : Type _} {x : Except PErr α} (h : x.isOk = true) : ∃ v, x = .ok v := by
  cases x with
  | error e => simp [Except.isOk, Except.toBool] at h
  | ok v => exact ⟨v, rfl⟩

theorem insertAt_perm (i : Nat) (x : α) (l : List α) :
    List.Perm (insertAt i x l) (x :: l) := by
  have h : List.Perm (l.take i ++ x :: l.drop i) (x :: (l.take i ++ l.drop i)) :=
    List.perm_middle
  rw [List.take_append_drop] at h
  exact h

theorem binInsPhase_perm (lt : κ → κ → Except PErr Bool) (key : α → κ) :
    ∀ (rest pre : List α), List.Perm (binInsPhase lt key pre rest).1 (pre ++ rest)
  | [], pre => by simp [binInsPhase]
  | x :: rest, pre => by
    simp only [binInsPhase]
    cases hbs : bsF lt (key x) (pre.map key) (pre.length + 1) 0 pre.length with
    | error e => exact List.Perm.refl _
    | ok i =>
      have h1 : List.Perm (binInsPhase lt key (insertAt i x pre) rest).1
          (insertAt i x pre ++ rest) := binInsPhase_perm lt key rest (insertAt i x pre)
      have h2 : List.Perm (insertAt i x pre ++ rest) ((x :: pre) ++ rest) :=
        (insertAt_perm i x pre).append_right rest
      have h3 : List.Perm (x :: (pre ++ rest)) (pre ++ x :: rest) := List.perm_middle.symm
      exact (h1.trans (h2.trans h3))

theorem extendRun_append (lt : κ → κ → Except PErr Bool) (key : α → κ) (desc : Bool) :
    ∀ (cur : α) (l run rest2 : List α),
      extendRun lt key desc cur l = .ok (run, rest2) → run ++ rest2 = l
  | _, [], run, rest2, h => by
    simp only [extendRun, Except.ok.injEq, Prod.mk.injEq] at h
    obtain ⟨h1, h2⟩ := h
    rw [← h1, ← h2]
    rfl
  | cur, x :: rest, run, rest2, h => by
    cases hc : lt (key x) (key cur) with
    | error e => simp [extendRun, hc] at h
    | ok b =>
      by_cases hb : b = desc
      · cases he : extendRun lt key desc x rest with
        | error e => simp [extendRun, hc, hb, he, Except.map] at h
        | ok pq =>
          simp only [extendRun, hc, hb, if_pos, he, Except.map, Except.ok.injEq,
            Prod.mk.injEq] at h
          obtain ⟨h1, h2⟩ := h
          rw [← h1, ← h2]
          have happ := extendRun_append lt key desc x rest pq.1 pq.2 (by rw [he])
          simpa using congrArg (List.cons x) happ
      · simp only [extendRun, hc, hb, if_neg, if_false, Except.ok.injEq,
          Prod.mk.injEq] at h
        obtain ⟨h1, h2⟩ := h
        rw [← h1, ← h2]
        rfl

theorem countRun_perm (lt : κ → κ → Except PErr Bool) (key : α → κ)
    (rows run rest : List α) (h : countRun lt key rows = .ok (run, rest)) :
    List.Perm (run ++ rest) rows := by
  cases rows with
  | nil =>
    simp only [countRun, Except.ok.injEq, Prod.mk.injEq] at h
    obtain ⟨h1, h2⟩ := h
    rw [← h1, ← h2]
    exact List.Perm.refl _
  | cons a rows' =>
    cases rows' with
    | nil =>
      simp only [countRun, Except.ok.injEq, Prod.mk.injEq] at h
      obtain ⟨h1, h2⟩ := h
      rw [← h1, ← h2]
      exact List.Perm.refl _
    | cons b rest0 =>
      cases hc : lt (key b) (key a) with
      | error e => simp [countRun, hc] at h
      | ok bb =>
        cases bb with
        | true =>
          cases he : extendRun lt key true b rest0 with
          | error e => simp [countRun, hc, he, Except.map] at h
          | ok pq =>
            simp only [countRun, hc, he, Except.map, Except.ok.injEq, Prod.mk.injEq] at h
            obtain ⟨h1, h2⟩ := h
            rw [← h1, ← h2]
            have happ := extendRun_append lt key true b rest0 pq.1 pq.2 (by rw [he])
            have heq : (a :: b :: pq.1) ++ pq.2 = a :: b :: rest0 := by
              rw [List.cons_append, List.cons_append, happ]
            have hs1 : List.Perm ((a :: b :: pq.1).reverse ++ pq.2)
                ((a :: b :: pq.1) ++ pq.2) := (List.reverse_perm _).append_right pq.2
            have hs2 : List.Perm ((a :: b :: pq.1) ++ pq.2) (a :: b :: rest0) := by
              rw [heq]
            exact hs1.trans hs2
        | false =>
          cases he : extendRun lt key false b rest0 with
          | error e => simp [countRun, hc, he, Except.map] at h
          | ok pq =>
            simp only [countRun, hc, he, Except.map, Except.ok.injEq, Prod.mk.injEq] at h
            obtain ⟨h1, h2⟩ := h
            rw [← h1, ← h2]
            have happ := extendRun_append lt key false b rest0 pq.1 pq.2 (by rw [he])
            have heq : (a :: b :: pq.1) ++ pq.2 = a :: b :: rest0 := by
              rw [List.cons_append, List.cons_append, happ]
            rw [heq]

theorem pyListSort_perm (lt : κ → κ → Except PErr Bool) (key : α → κ) (rows : List α) :
    List.Perm (pyListSort lt key rows).1 rows := by
  unfold pyListSort
  cases hcr : countRun lt key rows with
  | error e => exact List.Perm.refl rows
  | ok p =>
    exact (binInsPhase_perm lt key p.2 p.1).trans
      (countRun_perm lt key rows p.1 p.2 (by rw [hcr]))

/-! ### The code-point string order is a strict linear order -/

theorem strLtChars_asymm : ∀ {a b : List Char}, strLtChars a b = true → strLtChars b a = false := by
  intro a
  induction a with
  | nil =>
    intro b h
    cases b with
    | nil => simp [strLtChars] at h
    | cons d ds => simp [strLtChars]
  | cons c cs ih =>
    intro b h
    cases b with
    | nil => simp [strLtChars] at h
    | cons d ds =>
      simp only [strLtChars] at h ⊢
      by_cases h1 : c.toNat < d.toNat
      · have h2 : ¬ d.toNat < c.toNat := by omega
        simp [h1, h2]
      · by_cases h2 : d.toNat < c.toNat
        · simp [h1, h2] at h
        · simp only [h1, h2, if_false] at h ⊢
          exact ih h

theorem strLtChars_le_trans :
    ∀ {a b c : List Char}, strLtChars b a = false → strLtChars c b = false →
      strLtChars c a = false := by
  intro a
  induction a with
  | nil =>
    intro b c _ _
    cases c with
    | nil => rfl
    | cons z zs => rfl
  | cons x xs ih =>
    intro b c h1 h2
    cases b with
    | nil => simp [strLtChars] at h1
    | cons y ys =>
      cases c with
      | nil => simp [strLtChars] at h2
      | cons z zs =>
        simp only [strLtChars] at h1 h2 ⊢
        by_cases hyx : y.toNat < x.toNat
        · simp [hyx] at h1
        · by_cases hzy : z.toNat < y.toNat
          · simp [hzy] at h2
          · by_cases hzx : z.toNat < x.toNat
            · omega
            · by_cases hxz : x.toNat < z.toNat
              · simp [hzx, hxz]
              · have hxy : ¬ x.toNat < y.toNat := by omega
                have hyz : ¬ y.toNat < z.toNat := by omega
                simp only [hyx, hxy, if_false] at h1
                simp only [hzy, hyz, if_false] at h2
                simp only [hzx, hxz, if_false]
                exact ih h1 h2

theorem strLt_asymm {s t : String} (h : strLt s t = true) : strLt t s = false :=
  strLtChars_asymm h

theorem strLt_le_trans {s t u : String} (h1 : strLt t s = false) (h2 : strLt u t = false) :
    strLt u s = false :=
  strLtChars_le_trans h1 h2

theorem strLtChars_lt_of_lt_of_le :
    ∀ {a b c : List Char}, strLtChars a b = true → strLtChars c b = false →
      strLtChars a c = true := by
  intro a
  induction a with
  | nil =>
    intro b c h1 h2
    cases b with
    | nil => simp [strLtChars] at h1
    | cons y ys =>
      cases c with
      | nil => simp [strLtChars] at h2
      | cons z zs => simp [strLtChars]
  | cons x xs ih =>
    intro b c h1 h2
    cases b with
    | nil => simp [strLtChars] at h1
    | cons y ys =>
      cases c with
      | nil => simp [strLtChars] at h2
      | cons z zs =>
        simp only [strLtChars] at h1 h2 ⊢
        by_cases hzy : z.toNat < y.toNat
        · simp [hzy] at h2
        · by_cases hxy : x.toNat < y.toNat
          · have hxz : x.toNat < z.toNat := by omega
            simp [hxz]
          · by_cases hyx : y.toNat < x.toNat
            · simp [hxy, hyx] at h1
            · by_cases hyz : y.toNat < z.toNat
              · have hxz : x.toNat < z.toNat := by omega
                simp [hxz]
              · have hxz : ¬ x.toNat < z.toNat := by omega
                have hzx : ¬ z.toNat < x.toNat := by omega
                simp only [hxy, hyx, if_false] at h1
                simp only [hzy, hyz, if_false] at h2
                simp only [hxz, hzx, if_false]
                exact ih h1 h2

theorem strLt_lt_of_lt_of_le {s t u : String} (h1 : strLt s t = true)
    (h2 : strLt u t = false) : strLt s u = true :=
  strLtChars_lt_of_lt_of_le h1 h2

/-! ### The tuple-key order on numeric house keys -/

theorem ltK_num (m n : Int) (s t : String) :
    ltK (.num m, s) (.num n, t) = .ok (if m == n then strLt s t else decide (m < n)) := by
  have hpe : pyEq (.num m) (.num n) = (m == n) := rfl
  have hpl : pyLt (.num m) (.num n) = .ok (decide (m < n)) := rfl
  simp only [ltK, hpe, hpl]
  by_cases h : m == n
  · simp [h]
  · simp [h]

theorem leOf_ltK_num (m n : Int) (s t : String) :
    leOf ltK (.num m, s) (.num n, t) = !(if n == m then strLt t s else decide (n < m)) := by
  simp only [leOf, ltK_num]
  by_cases h : n == m
  · simp only [h, if_pos]
    cases hst : strLt t s <;> simp [hst]
  · simp only [h, if_neg, Bool.false_eq_true, if_false]
    by_cases hlt : n < m
    · simp [hlt]
    · simp [hlt]

theorem ltK_isOk_of_numKey {x y : Json × String} (hx : numKey x) (hy : numKey y) :
    (ltK x y).isOk = true := by
  obtain ⟨m, hm⟩ := hx
  obtain ⟨n, hn⟩ := hy
  obtain ⟨x1, s⟩ := x
  obtain ⟨y1, t⟩ := y
  simp only at hm hn
  subst hm hn
  rw [ltK_num]
  rfl

theorem leOf_ltK_total {x y : Json × String} (hx : numKey x) (hy : numKey y) :
    leOf ltK x y = true ∨ leOf ltK y x = true := by
  obtain ⟨m, hm⟩ := hx
  obtain ⟨n, hn⟩ := hy
  obtain ⟨x1, s⟩ := x
  obtain ⟨y1, t⟩ := y
  simp only at hm hn
  subst hm hn
  rw [leOf_ltK_num, leOf_ltK_num]
  by_cases hmn : m = n
  · subst hmn
    simp only [beq_self_eq_true, if_pos]
    cases hst : strLt t s
    · left; simp
    · right
      rw [strLt_asymm hst]
      simp
  · have h1 : (n == m) = false := by simp [Ne.symm hmn]
    have h2 : (m == n) = false := by simp [hmn]
    rw [h1, h2]
    simp only [if_false, Bool.false_eq_true]
    by_cases h : n < m
    · right
      have : ¬ m < n := by omega
      simp [this]
    · left
      simp [h]

theorem leOf_ltK_key_iff (a b : Int) (u v : String) :
    (!(if a == b then strLt u v else decide (a < b))) = true ↔
      (if a = b then strLt u v = false else ¬ a < b) := by
  by_cases h : a = b
  · simp [h]
  · simp [h]

theorem leOf_ltK_trans {x y z : Json × String} (hx : numKey x) (hy : numKey y) (hz : numKey z)
    (hxy : leOf ltK x y = true) (hyz : leOf ltK y z = true) : leOf ltK x z = true := by
  obtain ⟨m, hm⟩ := hx
  obtain ⟨n, hn⟩ := hy
  obtain ⟨p, hp⟩ := hz
  obtain ⟨x1, s⟩ := x
  obtain ⟨y1, t⟩ := y
  obtain ⟨z1, u⟩ := z
  simp only at hm hn hp
  subst hm hn hp
  rw [leOf_ltK_num, leOf_ltK_key_iff] at hxy hyz ⊢
  by_cases hnm : n = m
  · by_cases hpn : p = n
    · subst hnm
      subst hpn
      simp only [if_pos] at hxy hyz ⊢
      exact strLt_le_trans hxy hyz
    · subst hnm
      have hpm : ¬ p = n := hpn
      simp only [if_pos, if_neg hpn, if_neg hpm] at hxy hyz ⊢
      exact hyz
  · by_cases hpn : p = n
    · subst hpn
      simp only [if_pos, if_neg hnm] at hxy hyz ⊢
      exact hxy
    · simp only [if_neg hnm, if_neg hpn] at hxy hyz
      by_cases hpm : p = m
      · exfalso
        omega
      · simp only [if_neg hpm]
        omega

theorem leOf_ltK_sentinel_false {n : Int} (hn : n < 99) (s t : String) :
    leOf ltK (.num 99, s) (.num n, t) = false := by
  rw [leOf_ltK_num]
  have h1 : (n == 99) = false := by
    have : n ≠ 99 := by omega
    simp [this]
  have h2 : decide (n < 99) = true := by simp [hn]
  simp [h1, h2]

theorem leOf_of_not_lt {lt : κ → κ → Except PErr Bool} {x y : κ}
    (h : lt x y = .ok false) : leOf lt y x = true := by
  simp [leOf, h]

theorem ltK_true_iff (a b : Int) (u v : String) :
    ltK (.num a, u) (.num b, v) = .ok true ↔
      (if a = b then strLt u v = true else a < b) := by
  rw [ltK_num]
  by_cases h : a = b
  · subst h
    simp
  · have hb : (a == b) = false := by simp [h]
    rw [hb]
    simp [h]

theorem leOf_of_ltK_true {x y : Json × String} (hx : numKey x) (hy : numKey y)
    (h : ltK x y = .ok true) : leOf ltK x y = true := by
  obtain ⟨m, hm⟩ := hx
  obtain ⟨n, hn⟩ := hy
  obtain ⟨x1, s⟩ := x
  obtain ⟨y1, t⟩ := y
  simp only at hm hn
  subst hm hn
  rw [ltK_true_iff] at h
  rw [leOf_ltK_num, leOf_ltK_key_iff]
  by_cases hmn : m = n
  · subst hmn
    rw [if_pos rfl] at h ⊢
    exact strLt_asymm h
  · rw [if_neg hmn] at h
    rw [if_neg (fun hnm => hmn hnm.symm)]
    omega

theorem ltK_lt_of_lt_of_le {x y z : Json × String} (hx : numKey x) (hy : numKey y)
    (hz : numKey z) (h1 : ltK x y = .ok true) (h2 : leOf ltK y z = true) :
    ltK x z = .ok true := by
  obtain ⟨m, hm⟩ := hx
  obtain ⟨n, hn⟩ := hy
  obtain ⟨p, hp⟩ := hz
  obtain ⟨x1, s⟩ := x
  obtain ⟨y1, t⟩ := y
  obtain ⟨z1, u⟩ := z
  simp only at hm hn hp
  subst hm hn hp
  rw [ltK_true_iff] at h1 ⊢
  rw [leOf_ltK_num, leOf_ltK_key_iff] at h2
  by_cases hmn : m = n
  · by_cases hpn : p = n
    · subst hmn
      subst hpn
      rw [if_pos rfl] at h1 h2 ⊢
      exact strLt_lt_of_lt_of_le h1 h2
    · subst hmn
      rw [if_pos rfl] at h1
      rw [if_neg hpn] at h2
      rw [if_neg (fun hmp => hpn hmp.symm)]
      omega
  · by_cases hpn : p = n
    · subst hpn
      rw [if_neg hmn] at h1 ⊢
      exact h1
    · rw [if_neg hmn] at h1
      rw [if_neg hpn] at h2
      by_cases hmp : m = p
      · exfalso
        omega
      · rw [if_neg hmp]
        omega

/-! ### The sort model: the success path sorts (numeric keys) -/

theorem extendRun_isOk {key : α → Json × String} (desc : Bool) :
    ∀ (cur : α) (l : List α), numKey (key cur) → (∀ r ∈ l, numKey (key r)) →
      (extendRun ltK key desc cur l).isOk = true
  | _, [], _, _ => rfl
  | cur, x :: rest, hcur, hl => by
    have hx : numKey (key x) := hl x (by simp)
    have hok := ltK_isOk_of_numKey hx hcur
    cases hc : ltK (key x) (key cur) with
    | error e =>
      rw [hc] at hok
      simp [Except.isOk, Except.toBool] at hok
    | ok b =>
      by_cases hb : b = desc
      · have ih := extendRun_isOk desc x rest hx (fun r hr => hl r (by simp [hr]))
        cases he : extendRun ltK key desc x rest with
        | error e =>
          rw [he] at ih
          simp [Except.isOk, Except.toBool] at ih
        | ok pq => simp [extendRun, hc, hb, he, Except.map, Except.isOk, Except.toBool]
      · simp [extendRun, hc, hb, Except.isOk, Except.toBool]

theorem countRun_isOk {key : α → Json × String} (rows : List α)
    (h : ∀ r ∈ rows, numKey (key r)) : (countRun ltK key rows).isOk = true := by
  match rows with
  | [] => rfl
  | [a] => rfl
  | a :: b :: rest =>
    have ha : numKey (key a) := h a (by simp)
    have hb : numKey (key b) := h b (by simp)
    have hok := ltK_isOk_of_numKey hb ha
    have hrest : ∀ r ∈ rest, numKey (key r) := fun r hr => h r (by simp [hr])
    cases hc : ltK (key b) (key a) with
    | error e =>
      rw [hc] at hok
      simp [Except.isOk, Except.toBool] at hok
    | ok bb =>
      cases bb with
      | false =>
        obtain ⟨pq, hpq⟩ := isOk_exists (extendRun_isOk false b rest hb hrest)
        simp [countRun, hc, hpq, Except.map, Except.isOk, Except.toBool]
      | true =>
        obtain ⟨pq, hpq⟩ := isOk_exists (extendRun_isOk true b rest hb hrest)
        simp [countRun, hc, hpq, Except.map, Except.isOk, Except.toBool]

theorem extendRun_chain {key : α → Json × String} (desc : Bool) :
    ∀ (cur : α) (l run rest2 : List α),
      extendRun ltK key desc cur l = .ok (run, rest2) →
      List.Chain (fun u v => ltK (key v) (key u) = .ok desc) cur run
  | _, [], run, rest2, h => by
    simp only [extendRun, Except.ok.injEq, Prod.mk.injEq] at h
    rw [← h.1]
    exact List.Chain.nil
  | cur, x :: rest, run, rest2, h => by
    cases hc : ltK (key x) (key cur) with
    | error e => simp [extendRun, hc] at h
    | ok b =>
      by_cases hb : b = desc
      · subst hb
        cases he : extendRun ltK key b x rest with
        | error e => simp [extendRun, hc, he, Except.map] at h
        | ok pq =>
          simp only [extendRun, hc, if_pos, he, Except.map, Except.ok.injEq,
            Prod.mk.injEq] at h
          rw [← h.1]
          exact List.Chain.cons hc
            (extendRun_chain b x rest pq.1 pq.2 (by rw [he]))
      · simp only [extendRun, hc, hb, if_neg, if_false, Except.ok.injEq,
          Prod.mk.injEq] at h
        rw [← h.1]
        exact List.Chain.nil

theorem chain_le_pairwise {key : α → Json × String} :
    ∀ (a : α) (l : List α),
      List.Chain (fun u v => leOf ltK (key u) (key v) = true) a l →
      (∀ r ∈ a :: l, numKey (key r)) →
      (a :: l).Pairwise (fun u v => leOf ltK (key u) (key v) = true)
  | _, [], _, _ => by simp
  | a, b :: l, hch, hnum => by
    rcases List.chain_cons.mp hch with ⟨hab, hbl⟩
    have hpb := chain_le_pairwise b l hbl (fun r hr => hnum r (List.mem_cons_of_mem a hr))
    rw [List.pairwise_cons]
    refine ⟨?_, hpb⟩
    intro c hc
    rcases List.mem_cons.mp hc with rfl | hcl
    · exact hab
    · have hbc := (List.pairwise_cons.mp hpb).1 c hcl
      exact leOf_ltK_trans (hnum a (by simp)) (hnum b (by simp))
        (hnum c (List.mem_cons_of_mem a (List.mem_cons_of_mem b hcl))) hab hbc

theorem chain_gt_pairwise {key : α → Json × String} :
    ∀ (a : α) (l : List α),
      List.Chain (fun u v => ltK (key v) (key u) = .ok true) a l →
      (∀ r ∈ a :: l, numKey (key r)) →
      (a :: l).Pairwise (fun u v => ltK (key v) (key u) = .ok true)
  | _, [], _, _ => by simp
  | a, b :: l, hch, hnum => by
    rcases List.chain_cons.mp hch with ⟨hab, hbl⟩
    have hpb := chain_gt_pairwise b l hbl (fun r hr => hnum r (List.mem_cons_of_mem a hr))
    rw [List.pairwise_cons]
    refine ⟨?_, hpb⟩
    intro c hc
    rcases List.mem_cons.mp hc with rfl | hcl
    · exact hab
    · have hbc := (List.pairwise_cons.mp hpb).1 c hcl
      exact ltK_lt_of_lt_of_le
        (hnum c (List.mem_cons_of_mem a (List.mem_cons_of_mem b hcl)))
        (hnum b (by simp)) (hnum a (by simp)) hbc
        (leOf_of_ltK_true (hnum b (by simp)) (hnum a (by simp)) hab)

theorem pairwise_get?_le {ks : List (Json × String)}
    (hsorted : ks.Pairwise (fun u v => leOf ltK u v = true))
    {i j : Nat} (hij : i < j) {ki kj : Json × String}
    (hi : ks.get? i = some ki) (hj : ks.get? j = some kj) :
    leOf ltK ki kj = true := by
  have hilen : i < ks.length := by
    by_contra hle
    rw [List.get?_eq_none.mpr (by omega)] at hi
    exact Option.noConfusion hi
  have hjlen : j < ks.length := by
    by_contra hle
    rw [List.get?_eq_none.mpr (by omega)] at hj
    exact Option.noConfusion hj
  have h1 := List.pairwise_iff_get.mp hsorted ⟨i, hilen⟩ ⟨j, hjlen⟩ hij
  rw [List.get?_eq_get hilen] at hi
  rw [List.get?_eq_get hjlen] at hj
  injection hi with hi'
  injection hj with hj'
  rw [← hi', ← hj']
  exact h1

theorem countRun_sorted {key : α → Json × String} {rows run rest : List α}
    (hnum : ∀ r ∈ rows, numKey (key r))
    (h : countRun ltK key rows = .ok (run, rest)) :
    run.Pairwise (fun u v => leOf ltK (key u) (key v) = true) := by
  cases rows with
  | nil =>
    simp only [countRun, Except.ok.injEq, Prod.mk.injEq] at h
    rw [← h.1]
    exact List.Pairwise.nil
  | cons a rows' =>
    cases rows' with
    | nil =>
      simp only [countRun, Except.ok.injEq, Prod.mk.injEq] at h
      rw [← h.1]
      simp
    | cons b rest0 =>
      have hmemrun : ∀ pq : List α × List α,
          extendRun ltK key true b rest0 = .ok pq ∨
            extendRun ltK key false b rest0 = .ok pq →
          ∀ r ∈ a :: b :: pq.1, numKey (key r) := by
        intro pq hpq r hr
        apply hnum
        have happ : pq.1 ++ pq.2 = rest0 := by
          rcases hpq with hpq | hpq
          · exact extendRun_append ltK key true b rest0 pq.1 pq.2 hpq
          · exact extendRun_append ltK key false b rest0 pq.1 pq.2 hpq
        rcases List.mem_cons.mp hr with rfl | hr2
        · simp
        · rcases List.mem_cons.mp hr2 with rfl | hr3
          · simp
          · have : r ∈ pq.1 ++ pq.2 := List.mem_append_left pq.2 hr3
            rw [happ] at this
            simp [this]
      cases hc : ltK (key b) (key a) with
      | error e => simp [countRun, hc] at h
      | ok bb =>
        cases bb with
        | false =>
          cases he : extendRun ltK key false b rest0 with
          | error e => simp [countRun, hc, he, Except.map] at h
          | ok pq =>
            simp only [countRun, hc, he, Except.map, Except.ok.injEq, Prod.mk.injEq] at h
            rw [← h.1]
            have hch0 := extendRun_chain false b rest0 pq.1 pq.2 (by rw [he])
            have hch : List.Chain (fun u v => leOf ltK (key u) (key v) = true) a
                (b :: pq.1) :=
              List.chain_cons.mpr ⟨leOf_of_not_lt hc, hch0.imp
                (fun u v huv => leOf_of_not_lt huv)⟩
            exact chain_le_pairwise a (b :: pq.1) hch
              (hmemrun pq (Or.inr (by rw [he])))
        | true =>
          cases he : extendRun ltK key true b rest0 with
          | error e => simp [countRun, hc, he, Except.map] at h
          | ok pq =>
            simp only [countRun, hc, he, Except.map, Except.ok.injEq, Prod.mk.injEq] at h
            rw [← h.1]
            have hmem := hmemrun pq (Or.inl (by rw [he]))
            have hch : List.Chain (fun u v => ltK (key v) (key u) = .ok true) a
                (b :: pq.1) :=
              List.chain_cons.mpr ⟨hc, extendRun_chain true b rest0 pq.1 pq.2 (by rw [he])⟩
            have hpwflip := chain_gt_pairwise a (b :: pq.1) hch hmem
            have hpwrev : ((a :: b :: pq.1).reverse).Pairwise
                (fun u v => ltK (key u) (key v) = .ok true) :=
              List.pairwise_reverse.mpr hpwflip
            refine hpwrev.imp_of_mem ?_
            intro u v hu hv huv
            have hu2 : u ∈ a :: b :: pq.1 := List.mem_reverse.mp hu
            have hv2 : v ∈ a :: b :: pq.1 := List.mem_reverse.mp hv
            exact leOf_of_ltK_true (hmem u hu2) (hmem v hv2) huv

theorem bsF_spec {k : Json × String} {ks : List (Json × String)}
    (hk : numKey k) (hks : ∀ x ∈ ks, numKey x)
    (hsorted : ks.Pairwise (fun u v => leOf ltK u v = true)) :
    ∀ (fuel l r : Nat), l ≤ r → r ≤ ks.length → r - l ≤ fuel →
      (∀ j, j < l → ∀ kj, ks.get? j = some kj → leOf ltK kj k = true) →
      (∀ j, r ≤ j → ∀ kj, ks.get? j = some kj → ltK k kj = .ok true) →
      ∃ i, bsF ltK k ks fuel l r = .ok i ∧
        (∀ j, j < i → ∀ kj, ks.get? j = some kj → leOf ltK kj k = true) ∧
        (∀ j, i ≤ j → ∀ kj, ks.get? j = some kj → ltK k kj = .ok true) := by
  intro fuel
  induction fuel with
  | zero =>
    intro l r hlr hrlen hfuel hl hr
    have hlr2 : l = r := by omega
    subst hlr2
    exact ⟨l, rfl, hl, hr⟩
  | succ fuel ih =>
    intro l r hlr hrlen hfuel hl hr
    by_cases hcase : l < r
    · have hpl : l ≤ (l + r) / 2 := by omega
      have hpr : (l + r) / 2 < r := by omega
      have hplen : (l + r) / 2 < ks.length := by omega
      obtain ⟨kp, hget⟩ : ∃ kp, ks.get? ((l + r) / 2) = some kp := by
        rw [List.get?_eq_get hplen]
        exact ⟨_, rfl⟩
      have hkp : numKey kp := hks kp (List.get?_mem hget)
      have hok := ltK_isOk_of_numKey hk hkp
      cases hc : ltK k kp with
      | error e =>
        rw [hc] at hok
        simp [Except.isOk, Except.toBool] at hok
      | ok b =>
        cases b with
        | true =>
          have hrnew : ∀ j, (l + r) / 2 ≤ j → ∀ kj, ks.get? j = some kj →
              ltK k kj = .ok true := by
            intro j hj kj hgj
            by_cases hjr : r ≤ j
            · exact hr j hjr kj hgj
            · by_cases hjp : j = (l + r) / 2
              · subst hjp
                rw [hget] at hgj
                injection hgj with hkj
                rw [← hkj]
                exact hc
              · have hpj : (l + r) / 2 < j := by omega
                have hle := pairwise_get?_le hsorted hpj hget hgj
                exact ltK_lt_of_lt_of_le hk hkp (hks kj (List.get?_mem hgj)) hc hle
          obtain ⟨i, hbs, hbef, haft⟩ :=
            ih l ((l + r) / 2) hpl (by omega) (by omega) hl hrnew
          refine ⟨i, ?_, hbef, haft⟩
          have hred : bsF ltK k ks (fuel + 1) l r = bsF ltK k ks fuel l ((l + r) / 2) := by
            simp only [bsF, hget, hc]
            rw [if_pos hcase]
          rw [hred]
          exact hbs
        | false =>
          have hlnew : ∀ j, j < (l + r) / 2 + 1 → ∀ kj, ks.get? j = some kj →
              leOf ltK kj k = true := by
            intro j hj kj hgj
            by_cases hjl : j < l
            · exact hl j hjl kj hgj
            · by_cases hjp : j = (l + r) / 2
              · subst hjp
                rw [hget] at hgj
                injection hgj with hkj
                rw [← hkj]
                exact leOf_of_not_lt hc
              · have hjp2 : j < (l + r) / 2 := by omega
                have hle1 := pairwise_get?_le hsorted hjp2 hgj hget
                exact leOf_ltK_trans (hks kj (List.get?_mem hgj)) hkp hk hle1
                  (leOf_of_not_lt hc)
          obtain ⟨i, hbs, hbef, haft⟩ :=
            ih ((l + r) / 2 + 1) r (by omega) hrlen (by omega) hlnew hr
          refine ⟨i, ?_, hbef, haft⟩
          have hred : bsF ltK k ks (fuel + 1) l r =
              bsF ltK k ks fuel ((l + r) / 2 + 1) r := by
            simp only [bsF, hget, hc]
            rw [if_pos hcase]
          rw [hred]
          exact hbs
    · have hlr2 : l = r := by omega
      subst hlr2
      refine ⟨l, ?_, hl, hr⟩
      simp only [bsF]
      rw [if_neg hcase]

theorem pairwise_insertAt {key : α → Json × String} {pre : List α} {x : α}
    (hpre : pre.Pairwise (fun u v => leOf ltK (key u) (key v) = true))
    (hnum : ∀ r ∈ pre, numKey (key r)) (hx : numKey (key x))
    {i : Nat}
    (hbef : ∀ j, j < i → ∀ kj, (pre.map key).get? j = some kj →
      leOf ltK kj (key x) = true)
    (haft : ∀ j, i ≤ j → ∀ kj, (pre.map key).get? j = some kj →
      ltK (key x) kj = .ok true) :
    (insertAt i x pre).Pairwise (fun u v => leOf ltK (key u) (key v) = true) := by
  have hsplit : (pre.take i ++ pre.drop i).Pairwise
      (fun u v => leOf ltK (key u) (key v) = true) := by
    rw [List.take_append_drop]
    exact hpre
  obtain ⟨htake, hdrop, hcross⟩ := List.pairwise_append.mp hsplit
  unfold insertAt
  rw [List.pairwise_append]
  refine ⟨htake, ?_, ?_⟩
  · rw [List.pairwise_cons]
    refine ⟨?_, hdrop⟩
    intro b hb
    obtain ⟨n, hn⟩ := List.get_of_mem hb
    have hgb : pre.get? (i + n.1) = some b := by
      rw [← List.get?_drop]
      rw [List.get?_eq_get n.2]
      rw [hn]
    have hmapb : (pre.map key).get? (i + n.1) = some (key b) := by
      rw [List.get?_map, hgb]
      rfl
    have hlt := haft (i + n.1) (by omega) (key b) hmapb
    exact leOf_of_ltK_true hx (hnum b (List.drop_subset i pre hb)) hlt
  · intro a ha b hb
    rcases List.mem_cons.mp hb with rfl | hb2
    · obtain ⟨n, hn⟩ := List.get_of_mem ha
      have hni : n.1 < i := by
        have h2 := n.2
        simp [List.length_take] at h2
        omega
      have hga : pre.get? n.1 = some a := by
        rw [← List.get?_take hni]
        rw [List.get?_eq_get n.2]
        rw [hn]
      have hmapa : (pre.map key).get? n.1 = some (key a) := by
        rw [List.get?_map, hga]
        rfl
      exact hbef n.1 hni (key a) hmapa
    · exact hcross a ha b hb2

theorem binInsPhase_sorted {key : α → Json × String} :
    ∀ (rest pre : List α),
      pre.Pairwise (fun u v => leOf ltK (key u) (key v) = true) →
      (∀ r ∈ pre, numKey (key r)) → (∀ r ∈ rest, numKey (key r)) →
      (binInsPhase ltK key pre rest).1.Pairwise
        (fun u v => leOf ltK (key u) (key v) = true)
  | [], _, hpre, _, _ => hpre
  | x :: rest, pre, hpre, hnumpre, hnumrest => by
    have hx : numKey (key x) := hnumrest x (by simp)
    have hknum : ∀ kk ∈ pre.map key, numKey kk := by
      intro kk hkk
      rcases List.mem_map.mp hkk with ⟨r, hr, rfl⟩
      exact hnumpre r hr
    have hksorted : (pre.map key).Pairwise (fun u v => leOf ltK u v = true) :=
      List.pairwise_map.mpr hpre
    obtain ⟨i, hbs, hbef, haft⟩ :=
      bsF_spec hx hknum hksorted (pre.length + 1) 0 pre.length (by omega)
        (by rw [List.length_map]) (by omega)
        (fun j hj kj hgj => absurd hj (by omega))
        (fun j hj kj hgj => by
          rw [List.get?_eq_none.mpr (by rw [List.length_map]; omega)] at hgj
          exact Option.noConfusion hgj)
    have hred : binInsPhase ltK key pre (x :: rest) =
        binInsPhase ltK key (insertAt i x pre) rest := by
      simp only [binInsPhase, hbs]
    rw [hred]
    refine binInsPhase_sorted rest (insertAt i x pre)
      (pairwise_insertAt hpre hnumpre hx hbef haft) ?_
      (fun r hr => hnumrest r (by simp [hr]))
    intro r hr
    have hr2 : r ∈ x :: pre := (insertAt_perm i x pre).mem_iff.mp hr
    rcases List.mem_cons.mp hr2 with rfl | hr3
    · exact hx
    · exact hnumpre r hr3

/-- The main sorting result, generically in the row type: when every row has a
numeric house key, the sort really sorts (no comparison raises) and the output
is a permutation of the input that is pairwise ordered by the key order. -/
theorem pySortKeyed_sorted {α : Type} (key : α → Json × String) (rows : List α)
    (h : ∀ r ∈ rows, numKey (key r)) :
    (pySortKeyed ltK key rows).Pairwise (fun a b => leOf ltK (key a) (key b) = true) ∧
    List.Perm (pySortKeyed ltK key rows) rows := by
  refine ⟨?_, pyListSort_perm ltK key rows⟩
  unfold pySortKeyed pyListSort
  obtain ⟨⟨run, rest⟩, hcr⟩ := isOk_exists (countRun_isOk rows h)
  simp only [hcr]
  have hperm := countRun_perm ltK key rows run rest hcr
  have hrunnum : ∀ r ∈ run, numKey (key r) := fun r hr =>
    h r (hperm.mem_iff.mp (List.mem_append_left rest hr))
  have hrestnum : ∀ r ∈ rest, numKey (key r) := fun r hr =>
    h r (hperm.mem_iff.mp (List.mem_append_right run hr))
  exact binInsPhase_sorted rest run (countRun_sorted h hcr) hrunnum hrestnum

/-! ### Inversion lemmas for the per-element row builders -/

theorem pyGet_ok {j : Json} {k : String} {v : Json} (h : pyGet j k = .ok v) :
    v = objGetD j k ∧ isObjB j = true := by
  cases j <;> simp [pyGet, objGetD, isObjB] at h ⊢
  exact h.symm

theorem pyOrM_ok_left {x y : Except PErr Json} {v : Json} (h : pyOrM x y = .ok v) :
    ∃ a, x = .ok a := by
  cases x with
  | error e => simp [pyOrM] at h
  | ok a => exact ⟨a, rfl⟩

theorem retroResolve_ne_none (p : Json) : retroResolve p ≠ none := by
  unfold retroResolve
  split
  · split <;> simp
  · simp

theorem retroOf_ok {p : Json} {o : Option Bool} (h : retroOf p = .ok o) :
    o = retroResolve p := by
  have hobj : isObjB p = true := by
    cases p <;> first
      | rfl
      | simp [retroOf, pyGet, Bind.bind, Except.bind] at h
  unfold retroOf at h
  rw [pyGet_of_obj hobj] at h
  simp only [Bind.bind, Except.bind] at h
  unfold retroResolve
  cases hr : objGetD p "retro" with
  | null =>
    rw [hr] at h
    rw [pyGet_of_obj hobj] at h
    simp only at h
    cases hr2 : objGetD p "is_retro" with
    | null =>
      rw [hr2] at h
      rw [pyGet_of_obj hobj] at h
      simp only at h
      cases h
      rfl
    | bool b => rw [hr2] at h; cases h; rfl
    | num n => rw [hr2] at h; cases h; rfl
    | str s => rw [hr2] at h; cases h; rfl
    | list xs => rw [hr2] at h; cases h; rfl
    | obj kvs => rw [hr2] at h; cases h; rfl
  | bool b => rw [hr] at h; cases h; rfl
  | num n => rw [hr] at h; cases h; rfl
  | str s => rw [hr] at h; cases h; rfl
  | list xs => rw [hr] at h; cases h; rfl
  | obj kvs => rw [hr] at h; cases h; rfl

theorem degreeChain_ok {p : Json} (hobj : isObjB p = true) {d : Json}
    (h : pyOrM (pyGet p "degree") (pyOrM (pyGet p "longitude")
        (do let pos ← pyOrM (pyGet p "position") (.ok (.obj [])); pyGet pos "degree")) = .ok d) :
    d = degreeResolve p := by
  rw [pyGet_of_obj hobj, pyGet_of_obj hobj, pyGet_of_obj hobj] at h
  unfold degreeResolve
  simp only [pyOrM] at h
  by_cases h1 : truthy (objGetD p "degree")
  · rw [if_pos h1] at h
    cases h
    rw [if_pos h1]
  · rw [if_neg (by simp [h1])] at h
    rw [if_neg h1]
    by_cases h2 : truthy (objGetD p "longitude")
    · rw [if_pos h2] at h
      cases h
      rw [if_pos h2]
    · rw [if_neg (by simp [h2])] at h
      rw [if_neg h2]
      simp only [Bind.bind, Except.bind] at h
      by_cases h3 : truthy (objGetD p "position")
      · rw [if_pos h3] at h
        rw [if_pos h3]
        exact (pyGet_ok h).1
      · rw [if_neg (by simp [h3])] at h
        rw [if_neg h3]
        exact (pyGet_ok h).1

theorem kpRowOf_fields {p : Json} {r : KPRow} (h : kpRowOf p = .ok r) :
    r.retro = retroResolve p ∧ r.degree = degreeResolve p := by
  have hobj : isObjB p = true := by
    unfold kpRowOf at h
    simp only [exbind_ok] at h
    obtain ⟨planet, hplanet, _⟩ := h
    obtain ⟨a, ha⟩ := pyOrM_ok_left hplanet
    exact (pyGet_ok ha).2
  unfold kpRowOf at h
  simp only [exbind_ok, expure_ok] at h
  obtain ⟨planet, hplanet, planetName, hpn, planetVedic, hpv, sign, hsign, signName, hsn,
    signLord, hsl, signLordName, hsln, nak, hnak, nakName, hnn, nakLord, hnl,
    nakLordName, hnln, pada, hpada, degree, hdeg, hEl, hhEl, houseNoV, hhNo,
    retroV, hretroV, hrec⟩ := h
  subst hrec
  exact ⟨retroOf_ok hretroV, degreeChain_ok hobj hdeg⟩

theorem divPlanetRowOf_fields {hn hna rn rln p : Json} {r : DivRow}
    (h : divPlanetRowOf hn hna rn rln p = .ok r) :
    r.retro = retroResolve p ∧ r.degree = degreeResolve p := by
  have hobj : isObjB p = true := by
    unfold divPlanetRowOf at h
    simp only [exbind_ok] at h
    obtain ⟨planet, hplanet, _⟩ := h
    obtain ⟨a, ha⟩ := pyOrM_ok_left hplanet
    exact (pyGet_ok ha).2
  unfold divPlanetRowOf at h
  simp only [exbind_ok, expure_ok] at h
  obtain ⟨planet, hplanet, nak, hnak, planetName, hpn, planetVedic, hpv, nakName, hnn,
    nakLord, hnl, nakLordName, hnln, pada, hpada, degree, hdeg, retroV, hretroV, hrec⟩ := h
  subst hrec
  exact ⟨retroOf_ok hretroV, degreeChain_ok hobj hdeg⟩

/-! ### Structure of the flatteners on singleton inputs -/

theorem pySortKeyed_singleton {κ α : Type} (lt : κ → κ → Except PErr Bool)
    (key : α → κ) (r : α) : pySortKeyed lt key [r] = [r] := rfl

theorem mapM_singleton {α β : Type} (f : α → Except PErr β) (a : α) :
    [a].mapM f = f a >>= fun b => pure [b] := by
  cases hfa : f a <;> simp [List.mapM, List.mapM.loop, hfa, Bind.bind, Except.bind]

theorem flatten_kundli_planets_singleton {p : Json} {rows : List KPRow}
    (h : flatten_kundli_planets (.obj [("planets", .list [p])]) = .ok rows) :
    ∃ r, kpRowOf p = .ok r ∧ rows = [r] := by
  have hred : flatten_kundli_planets (.obj [("planets", .list [p])]) =
      ([p].mapM kpRowOf) >>= (fun rs => pure (pySortKeyed ltK kpKey rs)) := rfl
  rw [hred, mapM_singleton] at h
  simp only [exbind_ok, expure_ok] at h
  obtain ⟨rs, ⟨r, hr, hrs⟩, hrows⟩ := h
  subst hrs
  rw [pySortKeyed_singleton] at hrows
  exact ⟨r, hr, hrows.symm⟩

theorem divRowsOfHouse_wrap {p : Json} :
    divRowsOfHouse (.obj [("planet_positions", .list [p])]) =
      [p].mapM (divPlanetRowOf .null .null .null .null) := rfl

theorem flatten_divisional_singleton {p : Json} {rows : List DivRow}
    (h : flatten_divisional_positions
        (.obj [("divisional_positions", .list [.obj [("planet_positions", .list [p])]])]) =
        .ok rows) :
    ∃ r, divPlanetRowOf .null .null .null .null p = .ok r ∧ rows = [r] := by
  have hred : flatten_divisional_positions
      (.obj [("divisional_positions", .list [.obj [("planet_positions", .list [p])]])]) =
      ([Json.obj [("planet_positions", .list [p])]].mapM divRowsOfHouse) >>=
        (fun rowss => pure (pySortKeyed ltK divKey rowss.flatten)) := rfl
  rw [hred, mapM_singleton, divRowsOfHouse_wrap, mapM_singleton] at h
  simp only [exbind_ok, expure_ok] at h
  obtain ⟨rowss, ⟨rs, ⟨r, hr, hrs⟩, hrowss⟩, hrows⟩ := h
  subst hrs
  subst hrowss
  simp only [List.flatten, List.append_nil] at hrows
  rw [pySortKeyed_singleton] at hrows
  exact ⟨r, hr, hrows.symm⟩

/-! ### `firstListUnder` and `findIn` characterizations -/

theorem firstListUnder_none {root : Json} (hobj : isObjB root = true) :
    ∀ ks : List String, (∀ k ∈ ks, isListB (objGetD root k) = false) →
      firstListUnder root ks = .ok none := by
  intro ks
  induction ks with
  | nil => intro _; rfl
  | cons k ks ih =>
    intro hk
    have h1 : isListB (objGetD root k) = false := hk k (by simp)
    have hrest : ∀ k' ∈ ks, isListB (objGetD root k') = false :=
      fun k' hk' => hk k' (by simp [hk'])
    unfold firstListUnder
    rw [pyGet_of_obj hobj]
    simp only [Bind.bind, Except.bind]
    cases hv : objGetD root k with
    | list xs => rw [hv] at h1; simp [isListB] at h1
    | null => exact ih hrest
    | bool b => exact ih hrest
    | num n => exact ih hrest
    | str s => exact ih hrest
    | obj kvs => exact ih hrest

theorem findIn_eq_find? :
    ∀ (ps : List Json) (nowTs : Nat), (∀ p ∈ ps, isObjB p = true) →
      findIn ps nowTs = .ok (ps.find? (fun p => coveredB p nowTs)) := by
  intro ps nowTs
  induction ps with
  | nil => intro _; rfl
  | cons p ps ih =>
    intro hobj
    have hp : isObjB p = true := hobj p (by simp)
    have hps : ∀ q ∈ ps, isObjB q = true := fun q hq => hobj q (by simp [hq])
    unfold findIn
    rw [orChain3_of_obj hp, orChain3_of_obj hp]
    simp only [Bind.bind, Except.bind, List.find?]
    unfold coveredB
    cases hs : parse_dt (chainVal p ["start", "start_time", "from"]) with
    | none => simp only [hs]; exact ih hps
    | some s =>
      cases he : parse_dt (chainVal p ["end", "end_time", "to"]) with
      | none => simp only [hs, he]; exact ih hps
      | some e =>
        simp only [hs, he]
        by_cases hcond : (decide (s ≤ nowTs) && decide (nowTs ≤ e)) = true
        · simp only [hcond, if_pos, if_true]
          rfl
        · simp only [Bool.not_eq_true] at hcond
          simp only [hcond, if_false, Bool.false_eq_true]
          exact ih hps

/-! ### Descendant tiers of the dasha chain -/

theorem dashaTail_ok {root : Json} {nowTs : Nat} {md : Option Json} {ch : DashaChain}
    (h : dashaTail root nowTs md = .ok ch) :
    ∃ ad pd balance,
      (if truthy (match md with | some j => objGetD j "antardasha" | none => Json.null) then
          find_period_covering (match md with | some j => objGetD j "antardasha" | none => Json.null) nowTs
        else pure none) = .ok ad ∧
      (if truthy (match ad with | some j => objGetD j "pratyantardasha" | none => Json.null) then
          find_period_covering (match ad with | some j => objGetD j "pratyantardasha" | none => Json.null) nowTs
        else pure none) = .ok pd ∧
      ch.md = md ∧ ch.ad = ad ∧ ch.pd = pd ∧ ch.balance = balance := by
  unfold dashaTail at h
  simp only [exbind_ok, expure_ok] at h
  obtain ⟨ad, hAd, pd, hPd, balance, hBal, hrec⟩ := h
  subst hrec
  exact ⟨ad, pd, balance, hAd, hPd, rfl, rfl, rfl, rfl⟩

theorem current_dasha_chain_tail {resp : Json} {nowTs : Nat} {ch : DashaChain}
    (h : current_dasha_chain resp nowTs = .ok ch) :
    ∃ root md, dashaTail root nowTs md = .ok ch := by
  unfold current_dasha_chain at h
  simp only [exbind_ok] at h
  obtain ⟨root, hroot, direct, hdirect, md, hmd, htail⟩ := h
  exact ⟨root, md, htail⟩

theorem current_dasha_chain_descendants {resp : Json} {nowTs : Nat} {ch : DashaChain}
    (h : current_dasha_chain resp nowTs = .ok ch) :
    (ch.md = none → ch.ad = none) ∧
    (∀ j, ch.md = some j → truthy (objGetD j "antardasha") = false → ch.ad = none) ∧
    (ch.ad = none → ch.pd = none) := by
  obtain ⟨root, md, htail⟩ := current_dasha_chain_tail h
  obtain ⟨ad, pd, balance, hAd, hPd, hchmd, hchad, hchpd, _⟩ := dashaTail_ok htail
  refine ⟨?_, ?_, ?_⟩
  · intro h1
    have hmd : md = none := hchmd.symm.trans h1
    subst hmd
    simp only [truthy, Bool.false_eq_true, if_false, expure_ok] at hAd
    rw [hchad, ← hAd]
  · intro j h1 h2
    have hmd : md = some j := hchmd.symm.trans h1
    subst hmd
    simp only [h2, Bool.false_eq_true, if_false, expure_ok] at hAd
    rw [hchad, ← hAd]
  · intro h1
    have had : ad = none := hchad.symm.trans h1
    subst had
    simp only [truthy, Bool.false_eq_true, if_false, expure_ok] at hPd
    rw [hchpd, ← hPd]

/-! ### The sandbox retry condition -/

theorem sandbox1004_true {r : Resp} (h : sandbox1004 r = true) :
    ∃ msg, r.body = some msg ∧ isObjB msg = true ∧ errors1004 msg = .ok true := by
  unfold sandbox1004 at h
  cases hb : r.body with
  | none => rw [hb] at h; simp at h
  | some msg =>
    rw [hb] at h
    simp only [Bool.and_eq_true] at h
    refine ⟨msg, rfl, h.1, ?_⟩
    rcases h with ⟨_, h2⟩
    cases he : errors1004 msg with
    | error e => rw [he] at h2; simp at h2
    | ok b => rw [he] at h2; simp at h2; rw [h2]

/-! ### Concrete inputs used by the claim theorems -/

/-! ### C1 -/

/-- C1, corrected: `_find_period_covering` returns the first period of the
list (in list order) whose bounds, read through the Python `or` chains
`start or start_time or from` / `end or end_time or to` (first TRUTHY key,
not first present key), parse and enclose the reference instant; it returns
`none` when no period of an all-dict list qualifies and when the argument is
not a list at all.  Unparsable bounds disqualify a period without raising. -/
theorem find_period_covering_spec :
    (∀ (ps : List Json) (nowTs : Nat), (∀ p ∈ ps, isObjB p = true) →
        find_period_covering (.list ps) nowTs = .ok (ps.find? (fun p => coveredB p nowTs))) ∧
    (∀ (j : Json) (nowTs : Nat), isListB j = false →
        find_period_covering j nowTs = .ok none) := by
  constructor
  · intro ps nowTs h
    exact findIn_eq_find? ps nowTs h
  · intro j nowTs h
    cases j <;> first
      | rfl
      | simp [isListB] at h

/-- C1 counterexample: with `start` present but empty, the claim reads
`p.start` as the empty string, which does not parse, so by the claim the
scan should skip `pEx` and return none; the code falls through to
`start_time` and returns `pEx`. -/
theorem find_period_covering_first_present_cex :
    find_period_covering (.list [pEx]) (encDT 2001 6 1 0 0 0) = .ok (some pEx) ∧
    parse_dt (firstPresentVal pEx ["start", "start_time", "from"]) = none :=
  ⟨rfl, rfl⟩

/-- Witness: the characterization applied to a one-period list that covers
the instant. -/
theorem find_period_covering_spec_witness :
    (∀ p ∈ [pOk], isObjB p = true) ∧
    find_period_covering (.list [pOk]) (encDT 2001 6 1 0 0 0) = .ok (some pOk) := by
  have hobj : ∀ p ∈ [pOk], isObjB p = true := by
    intro p hp
    rw [List.mem_singleton] at hp
    subst hp
    rfl
  refine ⟨hobj, ?_⟩
  rw [find_period_covering_spec.1 [pOk] (encDT 2001 6 1 0 0 0) hobj]
  rfl

/-! ### C4 -/

/-- C4: on every input that exactly matches the pattern
`YYYY-MM-DDTHH:MM:SS±HH:MM`, `_force_jan1` keeps the year (the first four
characters) and everything from the `T` onwards (time of day and UTC offset)
verbatim and rewrites only the month/day section to `-01-01`; in particular
on `2001-12-29T06:06:00+05:30` it yields `2001-01-01T06:06:00+05:30`. -/
theorem force_jan1_format_spec :
    (∀ s : String, fmtExact s = true →
        (force_jan1 s).data = s.data.take 4 ++ "-01-01".data ++ s.data.drop 10) ∧
    force_jan1 "2001-12-29T06:06:00+05:30" = "2001-01-01T06:06:00+05:30" := by
  refine ⟨?_, rfl⟩
  intro s h
  obtain ⟨cs⟩ := s
  unfold fmtExact at h
  split at h
  case h_2 => exact absurd h (by simp)
  case h_1 y1 y2 y3 y4 m1 m2 d1 d2 hc1 hc2 n1 n2 sc1 sc2 sg o1 o2 pc1 pc2 heq =>
    have hcs : cs = [y1, y2, y3, y4, '-', m1, m2, '-', d1, d2, 'T', hc1, hc2, ':', n1, n2, ':', sc1, sc2, sg, o1, o2, ':', pc1, pc2] := heq
    subst hcs
    have hg : fjRewrite [y1, y2, y3, y4, '-', m1, m2, '-', d1, d2, 'T', hc1, hc2, ':', n1, n2, ':', sc1, sc2, sg, o1, o2, ':', pc1, pc2] = some ([y1, y2, y3, y4] ++ "-01-01T".data ++ [hc1, hc2, ':', n1, n2, ':', sc1, sc2, sg, o1, o2, ':', pc1, pc2]) := by
      show (if (y1.isDigit && y2.isDigit && y3.isDigit && y4.isDigit &&
          m1.isDigit && m2.isDigit && d1.isDigit && d2.isDigit &&
          hc1.isDigit && hc2.isDigit && n1.isDigit && n2.isDigit &&
          sc1.isDigit && sc2.isDigit && (sg == '+' || sg == '-') &&
          o1.isDigit && o2.isDigit && pc1.isDigit && pc2.isDigit &&
          (List.isEmpty (α := Char) [] || [] == ['\n'])) = true
        then some ([y1, y2, y3, y4] ++ "-01-01T".data ++ [hc1, hc2, ':', n1, n2, ':', sc1, sc2, sg, o1, o2, ':', pc1, pc2]) else none) = some ([y1, y2, y3, y4] ++ "-01-01T".data ++ [hc1, hc2, ':', n1, n2, ':', sc1, sc2, sg, o1, o2, ':', pc1, pc2])
      rw [if_pos ?hgua]
      case hgua =>
        simp only [Bool.and_eq_true] at h ⊢
        simp [h]
    show (match fjRewrite [y1, y2, y3, y4, '-', m1, m2, '-', d1, d2, 'T', hc1, hc2, ':', n1, n2, ':', sc1, sc2, sg, o1, o2, ':', pc1, pc2] with
          | some cs2 => String.mk cs2
          | none => String.mk [y1, y2, y3, y4, '-', m1, m2, '-', d1, d2, 'T', hc1, hc2, ':', n1, n2, ':', sc1, sc2, sg, o1, o2, ':', pc1, pc2]).data =
        List.take 4 [y1, y2, y3, y4, '-', m1, m2, '-', d1, d2, 'T', hc1, hc2, ':', n1, n2, ':', sc1, sc2, sg, o1, o2, ':', pc1, pc2] ++ "-01-01".data ++ List.drop 10 [y1, y2, y3, y4, '-', m1, m2, '-', d1, d2, 'T', hc1, hc2, ':', n1, n2, ':', sc1, sc2, sg, o1, o2, ':', pc1, pc2]
    rw [hg]
    rfl

/-- Witness: the format theorem applied to the concrete birth timestamp. -/
theorem force_jan1_format_spec_witness :
    fmtExact "2001-12-29T06:06:00+05:30" = true ∧
    (force_jan1 "2001-12-29T06:06:00+05:30").data =
      "2001-12-29T06:06:00+05:30".data.take 4 ++ "-01-01".data ++
        "2001-12-29T06:06:00+05:30".data.drop 10 :=
  ⟨rfl, force_jan1_format_spec.1 "2001-12-29T06:06:00+05:30" rfl⟩

/-! ### C10 -/

/-- C10 counterexample: a timestamp with one trailing newline does not
exactly match `YYYY-MM-DDTHH:MM:SS±HH:MM`, yet `_force_jan1` does not return
it unchanged: Python `$` also matches just before a final newline, so the
string is rewritten (and the newline dropped). -/
theorem force_jan1_trailing_newline_cex :
    fmtExact "2001-12-29T06:06:00+05:30\n" = false ∧
    force_jan1 "2001-12-29T06:06:00+05:30\n" = "2001-01-01T06:06:00+05:30" ∧
    force_jan1 "2001-12-29T06:06:00+05:30\n" ≠ "2001-12-29T06:06:00+05:30\n" :=
  ⟨rfl, rfl, by decide⟩

/-- C10, corrected: every input the anchored regular expression does not
match — where `$` tolerates one trailing newline — is returned unchanged; in
particular timestamps lacking seconds, ending in `Z`, or using a compact
`±HHMM` offset are returned verbatim.  A pattern-matching string with one
trailing newline is the lone exception: it is rewritten with the newline
dropped. -/
theorem force_jan1_unmatched_unchanged :
    (∀ s : String, fjRewrite s.data = none → force_jan1 s = s) ∧
    force_jan1 "2001-12-29T06:06+05:30" = "2001-12-29T06:06+05:30" ∧
    force_jan1 "2001-12-29T06:06:00Z" = "2001-12-29T06:06:00Z" ∧
    force_jan1 "2001-12-29T06:06:00+0530" = "2001-12-29T06:06:00+0530" ∧
    fjRewrite "2001-12-29T06:06:00+05:30\n".data =
      some "2001-01-01T06:06:00+05:30".data := by
  refine ⟨?_, rfl, rfl, rfl, rfl⟩
  intro s h
  unfold force_jan1
  rw [h]

/-- Witness: a plainly non-matching string is returned unchanged. -/
theorem force_jan1_unmatched_unchanged_witness :
    fjRewrite "not a timestamp".data = none ∧
    force_jan1 "not a timestamp" = "not a timestamp" :=
  ⟨rfl, force_jan1_unmatched_unchanged.1 "not a timestamp" rfl⟩

/-! ### C8 -/

/-- C8: the scenario dasha tree (one Ketu mahadasha 2000-2007 with one Venus
antardasha 2001-2002 and no pratyantardasha children) resolves at
2001-06-01 to MD=Ketu, AD=Venus, PD=none; and in general, whenever the
chain computation succeeds, a missing tier or a matched period without a
truthy child list makes every descendant tier resolve to `none`. -/
theorem current_dasha_chain_scenario :
    current_dasha_chain dashaScenario (encDT 2001 6 1 0 0 0) =
      .ok ⟨some mdK, some adV, none, .list [adV], .list [], .obj []⟩ ∧
    (∀ (resp : Json) (nowTs : Nat) (ch : DashaChain),
        current_dasha_chain resp nowTs = .ok ch →
        (ch.md = none → ch.ad = none ∧ ch.pd = none) ∧
        (∀ j, ch.md = some j → truthy (objGetD j "antardasha") = false →
            ch.ad = none ∧ ch.pd = none) ∧
        (ch.ad = none → ch.pd = none)) := by
  refine ⟨rfl, ?_⟩
  intro resp nowTs ch h
  obtain ⟨h1, h2, h3⟩ := current_dasha_chain_descendants h
  exact ⟨fun hmd => ⟨h1 hmd, h3 (h1 hmd)⟩,
         fun j hj hc => ⟨h2 j hj hc, h3 (h2 j hj hc)⟩,
         h3⟩

/-- Witness: the descendant rule applied to the empty response, whose chain
resolves to all-none. -/
theorem current_dasha_chain_scenario_witness :
    current_dasha_chain (.obj []) 5 = .ok ⟨none, none, none, .list [], .list [], .obj []⟩ ∧
    (⟨none, none, none, .list [], .list [], .obj []⟩ : DashaChain).ad = none ∧
    (⟨none, none, none, .list [], .list [], .obj []⟩ : DashaChain).pd = none := by
  refine ⟨rfl, ?_, ?_⟩
  · exact ((current_dasha_chain_scenario.2 (.obj []) 5 _ rfl).1 rfl).1
  · exact ((current_dasha_chain_scenario.2 (.obj []) 5 _ rfl).1 rfl).2

/-! ### C2 -/

/-- C2, corrected: the retrograde cell resolves from `retro`, then
`is_retro` (each tested with `is None`), then the equality
`motion == "retrograde"`; but when neither boolean key is present the cell is
the boolean OUTCOME of that comparison — `False` when `motion` is absent or
different — so the cell is never left unknown (`None`). -/
theorem flatten_retro_resolution :
    (∀ (p : Json) (rows : List KPRow),
        flatten_kundli_planets (.obj [("planets", .list [p])]) = .ok rows →
        ∃ r, rows = [r] ∧ r.retro = retroResolve p ∧ r.retro ≠ none) ∧
    (∀ (p : Json) (rows : List DivRow),
        flatten_divisional_positions
            (.obj [("divisional_positions", .list [.obj [("planet_positions", .list [p])]])]) =
          .ok rows →
        ∃ r, rows = [r] ∧ r.retro = retroResolve p ∧ r.retro ≠ none) := by
  constructor
  · intro p rows h
    obtain ⟨r, hr, hrows⟩ := flatten_kundli_planets_singleton h
    obtain ⟨hretro, _⟩ := kpRowOf_fields hr
    refine ⟨r, hrows, hretro, ?_⟩
    rw [hretro]
    exact retroResolve_ne_none p
  · intro p rows h
    obtain ⟨r, hr, hrows⟩ := flatten_divisional_singleton h
    obtain ⟨hretro, _⟩ := divPlanetRowOf_fields hr
    refine ⟨r, hrows, hretro, ?_⟩
    rw [hretro]
    exact retroResolve_ne_none p

/-- C2 counterexample: an element carrying none of the three retrograde
encodings yields `Retro = False`, not the unknown value `None` the claim
requires. -/
theorem flatten_retro_none_cex :
    flatten_kundli_planets (.obj [("planets", .list [.obj []])]) = .ok [kpZeroRow] ∧
    kpZeroRow.retro = some false :=
  ⟨rfl, rfl⟩

/-- Witness: the retro resolution applied to an element carrying only
`motion = "retrograde"`. -/
theorem flatten_retro_resolution_witness :
    ∃ r, ([⟨.null, .null, .str "", .null, .null, .null, .null, .null, .null, some true⟩] :
        List KPRow) = [r] ∧
      r.retro = retroResolve (.obj [("motion", .str "retrograde")]) ∧ r.retro ≠ none :=
  flatten_retro_resolution.1 (.obj [("motion", .str "retrograde")]) _ rfl

/-! ### C6 -/

/-- C6, corrected: each logical field is extracted through an ordered chain
of alternative keys, but joined with Python `or`, so the first TRUTHY value
wins: a present value of `0` under `degree` is falsy and falls through to
`longitude` (and then to `position.degree`) instead of being kept. -/
theorem flatten_degree_resolution :
    (∀ (p : Json) (rows : List KPRow),
        flatten_kundli_planets (.obj [("planets", .list [p])]) = .ok rows →
        ∃ r, rows = [r] ∧ r.degree = degreeResolve p ∧
          (truthy (objGetD p "degree") = true → r.degree = objGetD p "degree") ∧
          (objGetD p "degree" = .num 0 → truthy (objGetD p "longitude") = true →
              r.degree = objGetD p "longitude")) ∧
    (∀ (p : Json) (rows : List DivRow),
        flatten_divisional_positions
            (.obj [("divisional_positions", .list [.obj [("planet_positions", .list [p])]])]) =
          .ok rows →
        ∃ r, rows = [r] ∧ r.degree = degreeResolve p ∧
          (truthy (objGetD p "degree") = true → r.degree = objGetD p "degree") ∧
          (objGetD p "degree" = .num 0 → truthy (objGetD p "longitude") = true →
              r.degree = objGetD p "longitude")) := by
  have hstep : ∀ (p : Json), (truthy (objGetD p "degree") = true →
        degreeResolve p = objGetD p "degree") ∧
      (objGetD p "degree" = .num 0 → truthy (objGetD p "longitude") = true →
        degreeResolve p = objGetD p "longitude") := by
    intro p
    constructor
    · intro ht
      unfold degreeResolve
      rw [if_pos ht]
    · intro h0 hlon
      have hz : truthy (objGetD p "degree") = false := by
        rw [h0]
        rfl
      unfold degreeResolve
      rw [if_neg (by simp [hz]), if_pos hlon]
  constructor
  · intro p rows h
    obtain ⟨r, hr, hrows⟩ := flatten_kundli_planets_singleton h
    obtain ⟨_, hdeg⟩ := kpRowOf_fields hr
    refine ⟨r, hrows, hdeg, ?_, ?_⟩
    · intro ht
      rw [hdeg, (hstep p).1 ht]
    · intro h0 hlon
      rw [hdeg, (hstep p).2 h0 hlon]
  · intro p rows h
    obtain ⟨r, hr, hrows⟩ := flatten_divisional_singleton h
    obtain ⟨_, hdeg⟩ := divPlanetRowOf_fields hr
    refine ⟨r, hrows, hdeg, ?_, ?_⟩
    · intro ht
      rw [hdeg, (hstep p).1 ht]
    · intro h0 hlon
      rw [hdeg, (hstep p).2 h0 hlon]

/-- C6 counterexample: an element with `degree = 0` and `longitude = 5`
yields a degree of 5 — the present value 0 of the earlier key is dropped,
where the claim says it must be kept. -/
theorem flatten_degree_zero_cex :
    flatten_kundli_planets
        (.obj [("planets", .list [.obj [("degree", .num 0), ("longitude", .num 5)]])]) =
      .ok [⟨.null, .null, .str "", .null, .null, .null, .null, .null, .num 5, some false⟩] ∧
    (⟨.null, .null, .str "", .null, .null, .null, .null, .null, .num 5, some false⟩ :
        KPRow).degree = .num 5 ∧
    objGetD (.obj [("degree", .num 0), ("longitude", .num 5)]) "degree" = .num 0 :=
  ⟨rfl, rfl, rfl⟩

/-- Witness: the degree resolution applied to an element whose `degree` is a
truthy 7. -/
theorem flatten_degree_resolution_witness :
    ∃ r, ([⟨.null, .null, .str "", .null, .null, .null, .null, .null, .num 7, some false⟩] :
        List KPRow) = [r] ∧
      r.degree = degreeResolve (.obj [("degree", .num 7)]) ∧
      (truthy (objGetD (.obj [("degree", .num 7)]) "degree") = true →
          r.degree = objGetD (.obj [("degree", .num 7)]) "degree") ∧
      (objGetD (.obj [("degree", .num 7)]) "degree" = .num 0 →
          truthy (objGetD (.obj [("degree", .num 7)]) "longitude") = true →
          r.degree = objGetD (.obj [("degree", .num 7)]) "longitude") :=
  flatten_degree_resolution.1 (.obj [("degree", .num 7)]) _ rfl

/-! ### C7 -/

/-- `Except.ok` is a left unit for bind. -/
theorem ok_bind {α β : Type} (a : α) (f : α → Except PErr β) :
    (Except.ok a : Except PErr α) >>= f = f a := rfl

/-- C7, corrected: the flatteners CAN raise — `.get` on a non-dict value
(for example a non-dict `data` entry) raises `AttributeError` — but for
dict-shaped roots they degrade gracefully: when no recognized list key is
found the result is the empty row list, and a dict element with zero
recognized keys yields a row whose fields are all `None` except the Vedic
planet name (the empty string) and the retrograde flag (`False`); a
zero-key houses element yields an all-`None` row. -/
theorem flatten_missing_keys :
    (∀ kvs : List (String × Json), isObjB (dataRoot kvs) = true →
        (∀ k ∈ ["planets", "planet_positions", "grahas", "graha_positions", "bodies"],
            isListB (objGetD (dataRoot kvs) k) = false) →
        flatten_kundli_planets (.obj kvs) = .ok []) ∧
    (∀ kvs : List (String × Json), isObjB (dataRoot kvs) = true →
        truthy (objGetD (dataRoot kvs) "divisional_positions") = false →
        truthy (objGetD (dataRoot kvs) "positions") = false →
        flatten_divisional_positions (.obj kvs) = .ok []) ∧
    (∀ kvs : List (String × Json), isObjB (dataRoot kvs) = true →
        (∀ k ∈ ["houses", "bhavas", "house_positions", "bhava_positions"],
            isListB (objGetD (dataRoot kvs) k) = false) →
        flatten_kundli_houses (.obj kvs) = .ok []) ∧
    flatten_kundli_planets (.obj [("planets", .list [.obj []])]) = .ok [kpZeroRow] ∧
    flatten_divisional_positions
        (.obj [("divisional_positions", .list [.obj [("planet_positions", .list [.obj []])]])]) =
      .ok [divZeroRow] ∧
    flatten_kundli_houses (.obj [("houses", .list [.obj []])]) = .ok [⟨.null, .null, .null, .null⟩] := by
  refine ⟨?_, ?_, ?_, rfl, rfl, rfl⟩
  · intro kvs hobj hk
    unfold flatten_kundli_planets
    rw [show pyGetD (.obj kvs) "data" (.obj kvs) = .ok (dataRoot kvs) from rfl, ok_bind,
        firstListUnder_none hobj _ hk, ok_bind]
    rfl
  · intro kvs hobj h1 h2
    unfold flatten_divisional_positions
    rw [show pyGetD (.obj kvs) "data" (.obj kvs) = .ok (dataRoot kvs) from rfl, ok_bind,
        pyGet_of_obj hobj, pyGet_of_obj hobj]
    simp only [pyOrM, h1, h2, Bool.false_eq_true, if_false]
    rfl
  · intro kvs hobj hk
    unfold flatten_kundli_houses
    rw [show pyGetD (.obj kvs) "data" (.obj kvs) = .ok (dataRoot kvs) from rfl, ok_bind,
        firstListUnder_none hobj _ hk, ok_bind]
    rfl

/-- C7 counterexample: a `data` entry bound to a non-dict makes every
flattener raise `AttributeError`, where the claim requires the empty row
list. -/
theorem flatten_nonobject_data_cex :
    flatten_kundli_planets (.obj [("data", .num 5)]) = .error .attributeError ∧
    flatten_divisional_positions (.obj [("data", .num 5)]) = .error .attributeError ∧
    flatten_kundli_houses (.obj [("data", .num 5)]) = .error .attributeError :=
  ⟨rfl, rfl, rfl⟩

/-- Witness: no recognized key under a plain dict root flattens to the empty
row list. -/
theorem flatten_missing_keys_witness :
    isObjB (dataRoot [("x", Json.num 1)]) = true ∧
    flatten_kundli_planets (.obj [("x", Json.num 1)]) = .ok [] :=
  ⟨rfl, flatten_missing_keys.1 [("x", Json.num 1)] rfl (by decide)⟩

/-! ### C5 -/

/-- C5, corrected: missing houses sort with the SENTINEL key 99, so rows
with a missing house number appear after every row whose house number is an
integer below 99 (secondary order by the planet string); a known house
number of 99 or more sorts after the missing rows instead. -/
theorem sort_missing_house_last :
    (∀ rows : List KPRow, (∀ r ∈ rows, KnownOrMissing r.houseNo) →
        (pySortKeyed ltK kpKey rows).Pairwise
          (fun a b => a.houseNo = .null → b.houseNo = .null)) ∧
    (∀ rows : List DivRow, (∀ r ∈ rows, KnownOrMissing r.houseNo) →
        (pySortKeyed ltK divKey rows).Pairwise
          (fun a b => a.houseNo = .null → b.houseNo = .null)) := by
  constructor
  · intro rows hgood
    have hkeys : ∀ r ∈ rows, numKey (kpKey r) := by
      intro r hr
      rcases hgood r hr with h | ⟨n, hn, _⟩
      · exact ⟨99, by simp [kpKey, h, isNull]⟩
      · exact ⟨n, by simp [kpKey, hn, isNull]⟩
    obtain ⟨hpw, hperm⟩ := pySortKeyed_sorted kpKey rows hkeys
    have hmem : ∀ r ∈ pySortKeyed ltK kpKey rows, KnownOrMissing r.houseNo :=
      fun r hr => hgood r (hperm.mem_iff.mp hr)
    refine hpw.imp_of_mem ?_
    intro a b ha hb hle hanull
    rcases hmem b hb with hb0 | ⟨n, hn, hn99⟩
    · exact hb0
    · exfalso
      have hka : kpKey a = (.num 99, pyStr a.planet) := by simp [kpKey, hanull, isNull]
      have hkb : kpKey b = (.num n, pyStr b.planet) := by simp [kpKey, hn, isNull]
      rw [hka, hkb, leOf_ltK_sentinel_false hn99] at hle
      exact absurd hle (by simp)
  · intro rows hgood
    have hkeys : ∀ r ∈ rows, numKey (divKey r) := by
      intro r hr
      rcases hgood r hr with h | ⟨n, hn, _⟩
      · exact ⟨99, by simp [divKey, h, isNull]⟩
      · exact ⟨n, by simp [divKey, hn, isNull]⟩
    obtain ⟨hpw, hperm⟩ := pySortKeyed_sorted divKey rows hkeys
    have hmem : ∀ r ∈ pySortKeyed ltK divKey rows, KnownOrMissing r.houseNo :=
      fun r hr => hgood r (hperm.mem_iff.mp hr)
    refine hpw.imp_of_mem ?_
    intro a b ha hb hle hanull
    rcases hmem b hb with hb0 | ⟨n, hn, hn99⟩
    · exact hb0
    · exfalso
      have hka : divKey a = (.num 99, pyStr a.planet) := by simp [divKey, hanull, isNull]
      have hkb : divKey b = (.num n, pyStr b.planet) := by simp [divKey, hn, isNull]
      rw [hka, hkb, leOf_ltK_sentinel_false hn99] at hle
      exact absurd hle (by simp)

/-- C5 counterexample: a known house number of 150 sorts AFTER the row whose
house number is missing (sentinel 99), so missing-house rows do not always
come last. -/
theorem sort_sentinel_99_cex :
    flatten_kundli_planets (.obj [("planets", .list
        [.obj [("planet", .obj [("name", .str "a")]), ("house", .obj [("number", .num 150)])],
         .obj [("planet", .obj [("name", .str "b")])]])]) =
      .ok [⟨.null, .str "b", .str "", .null, .null, .null, .null, .null, .null, some false⟩,
           ⟨.num 150, .str "a", .str "", .null, .null, .null, .null, .null, .null, some false⟩] ∧
    (⟨.null, .str "b", .str "", .null, .null, .null, .null, .null, .null, some false⟩ :
        KPRow).houseNo = .null ∧
    (⟨.num 150, .str "a", .str "", .null, .null, .null, .null, .null, .null, some false⟩ :
        KPRow).houseNo = .num 150 :=
  ⟨rfl, rfl, rfl⟩

/-- Witness: sorting a missing-house row before a known-house row restores
the known-house-first order. -/
theorem sort_missing_house_last_witness :
    (∀ r ∈ [rMissing, rKnown], KnownOrMissing r.houseNo) ∧
    (pySortKeyed ltK kpKey [rMissing, rKnown]).Pairwise
      (fun a b => a.houseNo = .null → b.houseNo = .null) := by
  have hgood : ∀ r ∈ [rMissing, rKnown], KnownOrMissing r.houseNo := by
    intro r hr
    rcases List.mem_cons.mp hr with rfl | hr2
    · exact Or.inl rfl
    · rcases List.mem_cons.mp hr2 with rfl | h3
      · exact Or.inr ⟨5, rfl, by norm_num⟩
      · exact absurd h3 (List.not_mem_nil r)
  exact ⟨hgood, sort_missing_house_last.1 _ hgood⟩

/-! ### C9 -/

/-- C9, corrected: an exception raised by a key comparison during the
sorting step is swallowed — never fatal — and the sort step never changes
WHICH rows are returned: for each flattener's sort call the result is a
permutation of the rows built by the loop.  But the swallowed exception does
NOT leave the rows in their original input order: `list.sort` aborts
mid-way and the partially reordered list state persists. -/
theorem sort_best_effort :
    (∀ rows : List DivRow, List.Perm (pySortKeyed ltK divKey rows) rows) ∧
    (∀ rows : List KPRow, List.Perm (pySortKeyed ltK kpKey rows) rows) ∧
    (∀ rows : List KHRow, List.Perm (pySortKeyed pyLt khKey rows) rows) :=
  ⟨fun rows => pyListSort_perm ltK divKey rows,
   fun rows => pyListSort_perm ltK kpKey rows,
   fun rows => pyListSort_perm pyLt khKey rows⟩

/-- C9 counterexample: rows with house keys 2, 1, 3, "x", 0.  Comparing "x"
with 2 raises `TypeError` after the initial descending run [2, 1] has been
reversed and 3 has been inserted, so the swallowed exception leaves the list
as 1, 2, 3, "x", 0 — NOT the original input order. -/
theorem sort_partial_reorder_cex :
    (pyListSort ltK divKey sortCexRows).2 = some .typeError ∧
    pySortKeyed ltK divKey sortCexRows =
      [rowH (.num 1) "b", rowH (.num 2) "a", rowH (.num 3) "c",
       rowH (.str "x") "d", rowH (.num 0) "e"] ∧
    (pySortKeyed ltK divKey sortCexRows).map (fun r => pyStr r.planet) ≠
      sortCexRows.map (fun r => pyStr r.planet) :=
  ⟨rfl, rfl, by decide⟩

/-! ### C3 -/

/-- Shape of `get_chart_svg` on an error response with no JSON body. -/
theorem get_chart_svg_nobody (call : String → Resp) (dtv : String)
    (hge : ¬ (call dtv).status < 400) (hb : (call dtv).body = none) :
    get_chart_svg call dtv = .error (.httpError (call dtv).status (detailOf (call dtv))) := by
  simp only [get_chart_svg]
  rw [if_neg hge]
  split
  · rfl
  · rename_i msg2 heq
    rw [heq] at hb
    exact Option.noConfusion hb

/-- Shape of `get_chart_svg` on an error response with a known JSON body. -/
theorem get_chart_svg_body (call : String → Resp) (dtv : String) (msg : Json)
    (hge : ¬ (call dtv).status < 400) (hb : (call dtv).body = some msg) :
    get_chart_svg call dtv =
      (if ((call dtv).status == 400 && isObjB msg) = true then
        match errors1004 msg with
        | .error _ => .error (.httpError (call dtv).status (detailOf (call dtv)))
        | .ok false => .error (.httpError (call dtv).status (detailOf (call dtv)))
        | .ok true =>
          if (call (force_jan1 dtv)).status < 400 then
            .ok ((call (force_jan1 dtv)).raw, true)
          else .error (.httpError (call dtv).status (detailOf (call dtv)))
      else .error (.httpError (call dtv).status (detailOf (call dtv)))) := by
  simp only [get_chart_svg]
  rw [if_neg hge]
  split
  · rename_i heq
    rw [heq] at hb
    exact Option.noConfusion hb
  · rename_i msg2 heq
    rw [heq] at hb
    injection hb with h
    subst h
    rfl

/-- Shape of `get_dasha_periods` on an error response with no JSON body. -/
theorem get_dasha_periods_nobody (call : String → Resp) (dtv : String)
    (hge : ¬ (call dtv).status < 400) (hb : (call dtv).body = none) :
    get_dasha_periods call dtv = .error (.httpError (call dtv).status (detailOf (call dtv))) := by
  simp only [get_dasha_periods]
  rw [if_neg hge]
  split
  · rfl
  · rename_i msg2 heq
    rw [heq] at hb
    exact Option.noConfusion hb

/-- Shape of `get_dasha_periods` on an error response with a known JSON body. -/
theorem get_dasha_periods_body (call : String → Resp) (dtv : String) (msg : Json)
    (hge : ¬ (call dtv).status < 400) (hb : (call dtv).body = some msg) :
    get_dasha_periods call dtv =
      (if ((call dtv).status == 400 && isObjB msg) = true then
        match errors1004 msg with
        | .error _ => .error (.httpError (call dtv).status (detailOf (call dtv)))
        | .ok false => .error (.httpError (call dtv).status (detailOf (call dtv)))
        | .ok true =>
          if (call (force_jan1 dtv)).status < 400 then
            match (call (force_jan1 dtv)).body with
            | some j => .ok (j, true)
            | none => .error (.httpError (call dtv).status (detailOf (call dtv)))
          else .error (.httpError (call dtv).status (detailOf (call dtv)))
      else .error (.httpError (call dtv).status (detailOf (call dtv)))) := by
  simp only [get_dasha_periods]
  rw [if_neg hge]
  split
  · rename_i heq
    rw [heq] at hb
    exact Option.noConfusion hb
  · rename_i msg2 heq
    rw [heq] at hb
    injection hb with h
    subst h
    rfl

/-- C3, corrected: the sandbox retry fires only on status EXACTLY 400 (with
a dict JSON body containing an error object of code `"1004"`); an error
response with any other status is propagated without retry even when its
body carries the 1004 code.  A success returns `used_fallback = false`, a
successful retry returns `used_fallback = true`, and a failing retry is not
retried further: the escalated `HTTPError` carries the FIRST response's
status and parsed-or-raw body. -/
theorem api_sandbox_retry_policy :
    (∀ (call : String → Resp) (d : String), (call d).status < 400 →
        get_chart_svg call d = .ok ((call d).raw, false)) ∧
    (∀ (call : String → Resp) (d : String), 400 ≤ (call d).status → (call d).status ≠ 400 →
        get_chart_svg call d = .error (.httpError (call d).status (detailOf (call d)))) ∧
    (∀ (call : String → Resp) (d : String), (call d).status = 400 → sandbox1004 (call d) = false →
        get_chart_svg call d = .error (.httpError (call d).status (detailOf (call d)))) ∧
    (∀ (call : String → Resp) (d : String), (call d).status = 400 → sandbox1004 (call d) = true →
        (call (force_jan1 d)).status < 400 →
        get_chart_svg call d = .ok ((call (force_jan1 d)).raw, true)) ∧
    (∀ (call : String → Resp) (d : String), (call d).status = 400 → sandbox1004 (call d) = true →
        400 ≤ (call (force_jan1 d)).status →
        get_chart_svg call d = .error (.httpError (call d).status (detailOf (call d)))) ∧
    (∀ (call : String → Resp) (d : String) (j : Json), (call d).status < 400 →
        (call d).body = some j → get_dasha_periods call d = .ok (j, false)) ∧
    (∀ (call : String → Resp) (d : String), 400 ≤ (call d).status → (call d).status ≠ 400 →
        get_dasha_periods call d = .error (.httpError (call d).status (detailOf (call d)))) ∧
    (∀ (call : String → Resp) (d : String), (call d).status = 400 → sandbox1004 (call d) = false →
        get_dasha_periods call d = .error (.httpError (call d).status (detailOf (call d)))) ∧
    (∀ (call : String → Resp) (d : String) (j : Json), (call d).status = 400 →
        sandbox1004 (call d) = true → (call (force_jan1 d)).status < 400 →
        (call (force_jan1 d)).body = some j → get_dasha_periods call d = .ok (j, true)) ∧
    (∀ (call : String → Resp) (d : String), (call d).status = 400 → sandbox1004 (call d) = true →
        400 ≤ (call (force_jan1 d)).status →
        get_dasha_periods call d = .error (.httpError (call d).status (detailOf (call d)))) := by
  refine ⟨?_, ?_, ?_, ?_, ?_, ?_, ?_, ?_, ?_, ?_⟩
  · intro call d h
    simp only [get_chart_svg]
    rw [if_pos h]
  · intro call d h1 h2
    cases hb : (call d).body with
    | none => exact get_chart_svg_nobody call d (by omega) hb
    | some msg =>
      rw [get_chart_svg_body call d msg (by omega) hb, if_neg (by simp [h2])]
  · intro call d h400 hsand
    cases hb : (call d).body with
    | none => exact get_chart_svg_nobody call d (by omega) hb
    | some msg =>
      rw [get_chart_svg_body call d msg (by omega) hb]
      by_cases hobjb : isObjB msg = true
      · rw [if_pos (by simp [h400, hobjb])]
        unfold sandbox1004 at hsand
        rw [hb] at hsand
        cases he : errors1004 msg with
        | error e => rfl
        | ok b =>
          cases b with
          | false => rfl
          | true => simp [hobjb, he] at hsand
      · rw [if_neg (by simp [hobjb])]
  · intro call d h400 hsand hretry
    obtain ⟨msg, hb, hobjb, h1004⟩ := sandbox1004_true hsand
    rw [get_chart_svg_body call d msg (by omega) hb,
        if_pos (by simp [h400, hobjb]), h1004, if_pos hretry]
  · intro call d h400 hsand hretry
    obtain ⟨msg, hb, hobjb, h1004⟩ := sandbox1004_true hsand
    rw [get_chart_svg_body call d msg (by omega) hb,
        if_pos (by simp [h400, hobjb]), h1004, if_neg (by omega)]
  · intro call d j h hbody
    simp only [get_dasha_periods]
    rw [if_pos h]
    split
    · rename_i j2 heq
      rw [heq] at hbody
      injection hbody with hh
      rw [hh]
    · rename_i heq
      rw [heq] at hbody
      exact Option.noConfusion hbody
  · intro call d h1 h2
    cases hb : (call d).body with
    | none => exact get_dasha_periods_nobody call d (by omega) hb
    | some msg =>
      rw [get_dasha_periods_body call d msg (by omega) hb, if_neg (by simp [h2])]
  · intro call d h400 hsand
    cases hb : (call d).body with
    | none => exact get_dasha_periods_nobody call d (by omega) hb
    | some msg =>
      rw [get_dasha_periods_body call d msg (by omega) hb]
      by_cases hobjb : isObjB msg = true
      · rw [if_pos (by simp [h400, hobjb])]
        unfold sandbox1004 at hsand
        rw [hb] at hsand
        cases he : errors1004 msg with
        | error e => rfl
        | ok b =>
          cases b with
          | false => rfl
          | true => simp [hobjb, he] at hsand
      · rw [if_neg (by simp [hobjb])]
  · intro call d j h400 hsand hretry hbody2
    obtain ⟨msg, hb, hobjb, h1004⟩ := sandbox1004_true hsand
    rw [get_dasha_periods_body call d msg (by omega) hb,
        if_pos (by simp [h400, hobjb]), h1004, if_pos hretry, hbody2]
  · intro call d h400 hsand hretry
    obtain ⟨msg, hb, hobjb, h1004⟩ := sandbox1004_true hsand
    rw [get_dasha_periods_body call d msg (by omega) hb,
        if_pos (by simp [h400, hobjb]), h1004, if_neg (by omega)]

/-- C3 counterexample: an error response of status 500 whose body carries an
error object with code `"1004"` is propagated as an `HTTPError` without any
retry — although the retry would have succeeded — because the code tests
`status_code == 400`, while the claim promises a retry for EVERY error
status. -/
theorem api_sandbox_500_cex :
    get_chart_svg cex500Call "2001-12-29T06:06:00+05:30" =
      .error (.httpError 500 (.inl body1004)) ∧
    sandbox1004 (cex500Call "2001-12-29T06:06:00+05:30") = true ∧
    (cex500Call (force_jan1 "2001-12-29T06:06:00+05:30")).status = 200 :=
  ⟨rfl, rfl, rfl⟩

/-- Witness: a genuine status-400 sandbox response is retried once and the
successful fallback is returned with `used_fallback = true`. -/
theorem api_sandbox_retry_policy_witness :
    (cex400Call "2001-12-29T06:06:00+05:30").status = 400 ∧
    sandbox1004 (cex400Call "2001-12-29T06:06:00+05:30") = true ∧
    (cex400Call (force_jan1 "2001-12-29T06:06:00+05:30")).status < 400 ∧
    get_chart_svg cex400Call "2001-12-29T06:06:00+05:30" = .ok ("OK", true) := by
  refine ⟨rfl, rfl, by decide, ?_⟩
  exact api_sandbox_retry_policy.2.2.2.1 cex400Call "2001-12-29T06:06:00+05:30" rfl rfl (by decide)
